import Mathlib

/-!
Verification of the mooover-backend specification against its source.

The development shallowly embeds the core of the repository:
the in-memory `Repository` base class (src/app/repositories.py), the
graph-store semantics of the Neo4j user/group repositories, and the
service layer of src/app/services.py (`UserServices`, `GroupServices`,
`StepsServices`).  The store is modelled as association lists keyed by
entity id (users keyed by `sub`, groups keyed by `nickname`) plus a
list of MEMBER_OF edges, mirroring the dict / graph semantics of the
source.  Step counters are integers (Python integers are unbounded).
-/

namespace Mooover

/-- Error kinds of app.domain.errors: `NotFoundError`, `DuplicateError`,
`NoContentError`, each carrying a message string. -/
inductive AppError : Type where
  | notFound (msg : String) : AppError
  | duplicate (msg : String) : AppError
  | noContent (msg : String) : AppError
deriving Repr, DecidableEq

/-- Lookup in an association list, first matching key (Python dict lookup;
keys are unique in every reachable store). -/
def lookupId {α : Type} : List (String × α) → String → Option α
  | [], _ => none
  | (k, v) :: t, i => if k = i then some v else lookupId t i

/-- Replace the value stored at a key, first occurrence (Python dict
assignment to an existing key). -/
def setId {α : Type} : List (String × α) → String → α → List (String × α)
  | [], _, _ => []
  | (k, v) :: t, i, e => if k = i then (k, e) :: t else (k, v) :: setId t i e

/-- Delete the entry stored at a key, first occurrence (Python `del`). -/
def removeId {α : Type} : List (String × α) → String → List (String × α)
  | [], _ => []
  | (k, v) :: t, i => if k = i then t else (k, v) :: removeId t i

/-- The User model consolidated on in the spec (today/this-week
counters, dual goals); primary key `sub` (src/app/domain/models.py has
`__primarykey__ = "sub"`). -/
structure User : Type where
  sub : String
  name : String
  given_name : String
  family_name : String
  nickname : String
  email : String
  picture : String
  today_steps : Int
  daily_steps_goal : Int
  this_week_steps : Int
  weekly_steps_goal : Int
  app_theme : String
deriving Repr, DecidableEq

/-- The primary key of a user record. -/
def User.id (u : User) : String := u.sub

/-- Modelled from the spec: the consolidated model module
(corelib.domain.models) is not under src/, so the default field values
of a freshly registered user come from spec section 3 and the
`add_user` docstring: 0 steps, goal 5000, theme light. -/
def User.make (sub name given_name family_name nickname email picture : String) : User :=
  { sub := sub, name := name, given_name := given_name, family_name := family_name,
    nickname := nickname, email := email, picture := picture,
    today_steps := 0, daily_steps_goal := 5000,
    this_week_steps := 0, weekly_steps_goal := 35000, app_theme := "light" }

/-- The Group model consolidated on in the spec; primary key
`nickname`. -/
structure Group : Type where
  nickname : String
  name : String
  today_steps : Int
  daily_steps_goal : Int
  this_week_steps : Int
  weekly_steps_goal : Int
deriving Repr, DecidableEq

/-- The primary key of a group record. -/
def Group.id (g : Group) : String := g.nickname

/-- Modelled from the spec: default group values per spec section 3 and
the `add_group` docstring (0 steps, 5000 daily steps goal, 35000 weekly
steps goal); the consolidated model module is not under src/. -/
def Group.make (nickname name : String) : Group :=
  { nickname := nickname, name := name,
    today_steps := 0, daily_steps_goal := 5000,
    this_week_steps := 0, weekly_steps_goal := 35000 }

namespace Repository

/-- `Repository.get_one` of src/app/repositories.py: raise NotFound if
the id is absent, else return the stored entity. -/
def get_one {α : Type} (entities : List (String × α)) (entity_id : String) :
    Except AppError α :=
  match lookupId entities entity_id with
  | some e => Except.ok e
  | none => Except.error (AppError.notFound "Entity not found")

/-- `Repository.get_all`: all stored entities, in store (insertion)
order. -/
def get_all {α : Type} (entities : List (String × α)) : List α :=
  entities.map Prod.snd

/-- `Repository.add`: raise Duplicate if the entity id is present, else
store the entity under its id. -/
def add {α : Type} (idOf : α → String) (entities : List (String × α)) (entity : α) :
    Except AppError (List (String × α)) :=
  match lookupId entities (idOf entity) with
  | some _ => Except.error (AppError.duplicate "Entity already exists")
  | none => Except.ok (entities ++ [(idOf entity, entity)])

/-- `Repository.update`: raise NotFound if the entity id is absent, else
replace the stored entity. -/
def update {α : Type} (idOf : α → String) (entities : List (String × α)) (entity : α) :
    Except AppError (List (String × α)) :=
  match lookupId entities (idOf entity) with
  | none => Except.error (AppError.notFound "Entity not found")
  | some _ => Except.ok (setId entities (idOf entity) entity)

/-- `Repository.delete`: raise NotFound if the id is absent, else remove
the entry. -/
def delete {α : Type} (entities : List (String × α)) (entity_id : String) :
    Except AppError (List (String × α)) :=
  match lookupId entities entity_id with
  | none => Except.error (AppError.notFound "Entity not found")
  | some _ => Except.ok (removeId entities entity_id)

end Repository

/-- `UserServices.add_user`: build a user with default values and add it
to the repository. -/
def addUser (users : List (String × User))
    (sub name given_name family_name nickname email picture : String) :
    Except AppError (List (String × User)) :=
  Repository.add User.id users
    (User.make sub name given_name family_name nickname email picture)

/-- `UserServices.get_user`: fetch a user by id. -/
def getUser (users : List (String × User)) (user_id : String) :
    Except AppError User :=
  Repository.get_one users user_id

/-! ## The graph store

`DB` models the Neo4j store of the monolith deployment: User nodes
keyed by `sub`, Group nodes keyed by `nickname`, and the MEMBER_OF
edges (user id, group id).  The repository functions below translate
Neo4jUserRepository / Neo4jGroupRepository of src/app/repositories.py.
-/

structure DB : Type where
  users : List (String × User)
  groups : List (String × Group)
  edges : List (String × String)
deriving Repr, DecidableEq

/-- `Neo4jUserRepository.get_one`. -/
def getOneUser (db : DB) (user_id : String) : Except AppError User :=
  match lookupId db.users user_id with
  | some u => Except.ok u
  | none => Except.error (AppError.notFound "User not found")

/-- `Neo4jGroupRepository.get_one`. -/
def getOneGroup (db : DB) (group_id : String) : Except AppError Group :=
  match lookupId db.groups group_id with
  | some g => Except.ok g
  | none => Except.error (AppError.notFound "Group not found")

/-- The groups reached from a user along MEMBER_OF edges (the body of
the `MATCH (u)-[:MEMBER_OF]->(g) RETURN g` query). -/
def groupsLinkedTo (db : DB) (user_id : String) : List Group :=
  db.edges.filterMap fun e =>
    if e.1 = user_id then lookupId db.groups e.2 else none

/-- The users reaching a group along MEMBER_OF edges (the body of the
`MATCH (u)-[:MEMBER_OF]->(g) RETURN u` query). -/
def usersLinkedTo (db : DB) (group_id : String) : List User :=
  db.edges.filterMap fun e =>
    if e.2 = group_id then lookupId db.users e.1 else none

/-- `Neo4jUserRepository.get_groups_of_user`: NotFound if the user is
absent, else the user's groups. -/
def getGroupsOfUser (db : DB) (user_id : String) : Except AppError (List Group) :=
  match lookupId db.users user_id with
  | none => Except.error (AppError.notFound "User not found")
  | some _ => Except.ok (groupsLinkedTo db user_id)

/-- `Neo4jGroupRepository.get_members_of_group`: NotFound if the group
is absent, else the group's members. -/
def getMembersOfGroup (db : DB) (group_id : String) : Except AppError (List User) :=
  match lookupId db.groups group_id with
  | none => Except.error (AppError.notFound "Group not found")
  | some _ => Except.ok (usersLinkedTo db group_id)

/-- `Neo4jUserRepository.update`: NotFound if the user is absent, else
replace the node's fields. -/
def repoUpdateUser (db : DB) (u : User) : Except AppError DB :=
  match lookupId db.users u.id with
  | none => Except.error (AppError.notFound "User not found")
  | some _ => Except.ok { db with users := setId db.users u.id u }

/-- `Neo4jGroupRepository.update`: NotFound if the group is absent, else
replace the node's fields. -/
def repoUpdateGroup (db : DB) (g : Group) : Except AppError DB :=
  match lookupId db.groups g.id with
  | none => Except.error (AppError.notFound "Group not found")
  | some _ => Except.ok { db with groups := setId db.groups g.id g }

/-- `Neo4jGroupRepository.add`: Duplicate if a group with the same
nickname exists, else create the node. -/
def repoAddGroup (db : DB) (g : Group) : Except AppError DB :=
  match lookupId db.groups g.id with
  | some _ => Except.error (AppError.duplicate "Group already exists")
  | none => Except.ok { db with groups := db.groups ++ [(g.id, g)] }

/-- `Neo4jGroupRepository.delete`: NotFound if the group is absent, else
`DETACH DELETE` — the node and all edges touching it are removed. -/
def repoDeleteGroup (db : DB) (group_id : String) : Except AppError DB :=
  match lookupId db.groups group_id with
  | none => Except.error (AppError.notFound "Group not found")
  | some _ =>
      Except.ok { db with groups := removeId db.groups group_id,
                          edges := db.edges.filter (fun e => !(e.2 = group_id)) }

/-- `Neo4jGroupRepository.add_member_to_group`: NotFound if the group is
absent (outer `get_one`), NotFound if the user is absent (inner MATCH),
else create a MEMBER_OF edge. -/
def repoAddMember (db : DB) (user_id group_id : String) : Except AppError DB :=
  match lookupId db.groups group_id with
  | none => Except.error (AppError.notFound "Group not found")
  | some _ =>
      match lookupId db.users user_id with
      | none => Except.error (AppError.notFound "User not found")
      | some _ => Except.ok { db with edges := db.edges ++ [(user_id, group_id)] }

/-- `Neo4jGroupRepository.remove_member_from_group`: NotFound if the
group is absent, NotFound if the user is absent, else delete every
MEMBER_OF edge from the user to the group (deleting nothing when no
such edge exists). -/
def repoRemoveMember (db : DB) (user_id group_id : String) : Except AppError DB :=
  match lookupId db.groups group_id with
  | none => Except.error (AppError.notFound "Group not found")
  | some _ =>
      match lookupId db.users user_id with
      | none => Except.error (AppError.notFound "User not found")
      | some _ =>
          let edges1 := db.edges.filter (fun e => !(e.1 = user_id && e.2 = group_id))
          Except.ok { db with edges := edges1 }

/-! ## The service layer (src/app/services.py) -/

/-- `UserServices.get_group_of_user`: NotFound if the user is absent,
NoContent if the user has no group, else the first group. -/
def getGroupOfUser (db : DB) (user_id : String) : Except AppError Group := do
  let user ← getOneUser db user_id
  let groups ← getGroupsOfUser db user.id
  match groups with
  | [] => Except.error (AppError.noContent "The user has no group")
  | g :: _ => Except.ok g

/-- A group record with both step counters raised by the same delta. -/
def Group.bump (g : Group) (steps : Int) : Group :=
  { g with today_steps := g.today_steps + steps,
           this_week_steps := g.this_week_steps + steps }

/-- A user record with both step counters raised by the same delta. -/
def User.bump (u : User) (steps : Int) : User :=
  { u with today_steps := u.today_steps + steps,
           this_week_steps := u.this_week_steps + steps }

/-- `StepsServices.add_new_steps`: fetch the user (NotFound if absent),
raise both of its counters by `steps` and persist it, then raise both
counters of every group of the user by `steps` and persist each. -/
def addNewSteps (db : DB) (user_id : String) (steps : Int) : Except AppError DB := do
  let user ← getOneUser db user_id
  let user1 := User.bump user steps
  let db1 ← repoUpdateUser db user1
  let groups ← getGroupsOfUser db1 user_id
  groups.foldlM (fun acc g => repoUpdateGroup acc (Group.bump g steps)) db1

/-- `GroupServices.add_member_to_group`: Duplicate if the target group
is already among the user's groups; otherwise create the edge, then add
the user's two counters onto the group's and persist the group. -/
def addMemberToGroup (db : DB) (user_id group_id : String) : Except AppError DB := do
  let groups ← getGroupsOfUser db user_id
  if group_id ∈ groups.map Group.id then
    Except.error (AppError.duplicate "The user is already a member of the group")
  else do
    let db1 ← repoAddMember db user_id group_id
    let user ← getOneUser db1 user_id
    let group ← getOneGroup db1 group_id
    repoUpdateGroup db1
      { group with today_steps := group.today_steps + user.today_steps,
                   this_week_steps := group.this_week_steps + user.this_week_steps }

/-- `GroupServices.remove_member_from_group`: delete the user's edge to
the group (NotFound if the group or the user is absent); if the group
then has no members delete the group, otherwise subtract the user's two
counters from the group's and persist the group. -/
def removeMemberFromGroup (db : DB) (user_id group_id : String) : Except AppError DB := do
  let db1 ← repoRemoveMember db user_id group_id
  let members ← getMembersOfGroup db1 group_id
  if members.isEmpty then
    repoDeleteGroup db1 group_id
  else do
    let user ← getOneUser db1 user_id
    let group ← getOneGroup db1 group_id
    repoUpdateGroup db1
      { group with today_steps := group.today_steps - user.today_steps,
                   this_week_steps := group.this_week_steps - user.this_week_steps }

/-- `GroupServices.add_group`: Duplicate if the creating user already
has a group; otherwise build a default group, add it (Duplicate if the
nickname is taken) and create the membership edge at the repository
level (no step seeding happens on this path). -/
def addGroup (db : DB) (user : User) (nickname name : String) : Except AppError DB := do
  let groups ← getGroupsOfUser db user.id
  if groups.isEmpty then do
    let g := Group.make nickname name
    let db1 ← repoAddGroup db g
    repoAddMember db1 user.id g.id
  else
    Except.error (AppError.duplicate "The user already has a group")

/-- The `POST /groups` endpoint of src/app/api.py: fetch the creating
user, then call `GroupServices.add_group` with it. -/
def createGroupEndpoint (db : DB) (user_id nickname name : String) :
    Except AppError DB := do
  let user ← getOneUser db user_id
  addGroup db user nickname name

/-- A user record with its today counter reset to zero. -/
def User.zeroToday (u : User) : User := { u with today_steps := 0 }

/-- A group record with its today counter reset to zero. -/
def Group.zeroToday (g : Group) : Group := { g with today_steps := 0 }

/-- One firing of the daily reset
(`StepsServices.run_background_tasks._reset_today_steps` loop body):
fetch all users, set each `today_steps` to 0 and persist; then fetch
all groups, set each `today_steps` to 0 and persist (the source calls
`update` twice per group). -/
def resetTodaySteps (db : DB) : Except AppError DB := do
  let db1 ← (Repository.get_all db.users).foldlM
    (fun acc u => repoUpdateUser acc (User.zeroToday u)) db
  (Repository.get_all db1.groups).foldlM
    (fun acc g => do
      let acc1 ← repoUpdateGroup acc (Group.zeroToday g)
      repoUpdateGroup acc1 (Group.zeroToday g)) db1

/-! ## Group listing (`GroupServices.get_groups`) -/

/-- `lpre n h`: `n` is a leading segment of `h` (character lists). -/
def lpre : List Char → List Char → Bool
  | [], _ => true
  | _ :: _, [] => false
  | a :: n, b :: h => a = b && lpre n h

/-- `lsub n h`: `n` occurs contiguously inside `h` (character lists). -/
def lsub (n : List Char) : List Char → Bool
  | [] => lpre n []
  | b :: h => lpre n (b :: h) || lsub n h

/-- Python's `needle in hay` on strings: literal, case-sensitive
substring containment. -/
def strIn (needle hay : String) : Bool := lsub needle.data hay.data

/-- The filter condition of the `get_groups` loop body (the
if / elif chain of the source). -/
def matchesFilter (nickname_filter : String) (name_also loose : Bool) (g : Group) : Bool :=
  if loose then
    if strIn nickname_filter g.nickname then true
    else if name_also && strIn nickname_filter g.name then true
    else false
  else
    if nickname_filter = g.nickname then true
    else if name_also && nickname_filter = g.name then true
    else false

/-- `GroupServices.get_groups`: all groups when the filter is empty,
else the groups passing the filter, in store order. -/
def getGroups (db : DB) (nickname_filter : String) (name_also loose : Bool) :
    List Group :=
  let groups := Repository.get_all db.groups
  if nickname_filter = "" then groups
  else groups.filter (matchesFilter nickname_filter name_also loose)

/-! ## Well-formedness and the aggregate invariant -/

/-- Sum of the `today_steps` of a list of users. -/
def todaySumOf (l : List User) : Int := (l.map User.today_steps).sum

/-- Sum of the `this_week_steps` of a list of users. -/
def weekSumOf (l : List User) : Int := (l.map User.this_week_steps).sum

/-- The aggregate invariant of spec section 3: every stored group's two
step counters equal the sums of its current members' counters. -/
def GroupAggInv (db : DB) : Prop :=
  ∀ kg ∈ db.groups,
    kg.2.today_steps = todaySumOf (usersLinkedTo db kg.1) ∧
    kg.2.this_week_steps = weekSumOf (usersLinkedTo db kg.1)

/-- Structural well-formedness of the store: entities are keyed by
their primary key, keys are unique, edges are distinct and join
existing nodes.  Every store reachable through the service layer from
an empty store satisfies this. -/
def WF (db : DB) : Prop :=
  (∀ ku ∈ db.users, User.id ku.2 = ku.1) ∧
  (∀ kg ∈ db.groups, Group.id kg.2 = kg.1) ∧
  (db.users.map Prod.fst).Nodup ∧
  (db.groups.map Prod.fst).Nodup ∧
  db.edges.Nodup ∧
  (∀ e ∈ db.edges, (lookupId db.users e.1).isSome ∧ (lookupId db.groups e.2).isSome)

/-- The four mutating operations of the membership coordinator and
steps façade, as invoked through the HTTP layer. -/
inductive Action : Type where
  | createGroup (user_id nickname name : String) : Action
  | addMember (user_id group_id : String) : Action
  | removeMember (user_id group_id : String) : Action
  | logSteps (user_id : String) (steps : Int) : Action
deriving Repr, DecidableEq

/-- Dispatch an action to the corresponding service operation. -/
def applyAction (db : DB) : Action → Except AppError DB
  | Action.createGroup uid nick nm => createGroupEndpoint db uid nick nm
  | Action.addMember uid gid => addMemberToGroup db uid gid
  | Action.removeMember uid gid => removeMemberFromGroup db uid gid
  | Action.logSteps uid n => addNewSteps db uid n

/-- `RunOk db as db1`: executing the actions `as` sequentially from
`db`, every action succeeds, ending in `db1`. -/
inductive RunOk : DB → List Action → DB → Prop where
  | nil (db : DB) : RunOk db [] db
  | cons {db db1 db2 : DB} {a : Action} {as : List Action} :
      applyAction db a = Except.ok db1 → RunOk db1 as db2 → RunOk db (a :: as) db2

instance (db : DB) : Decidable (GroupAggInv db) := by
  unfold GroupAggInv; infer_instance

instance (db : DB) : Decidable (WF db) := by
  unfold WF; infer_instance

/-! ## Association-list lemmas -/

theorem lookupId_setId_ne {α : Type} (l : List (String × α)) (k : String) (v : α)
    (i : String) (h : i ≠ k) : lookupId (setId l k v) i = lookupId l i := by
  induction l with
  | nil => rfl
  | cons hd t ih =>
      obtain ⟨k0, v0⟩ := hd
      by_cases hk : k0 = k
      · subst hk
        simp only [setId, if_pos rfl, lookupId]
        rw [if_neg (by simpa using fun hh => h hh.symm),
          if_neg (by simpa using fun hh => h hh.symm)]
      · simp only [setId, if_neg hk, lookupId]
        by_cases hi : k0 = i
        · rw [if_pos hi, if_pos hi]
        · rw [if_neg hi, if_neg hi, ih]

theorem lookupId_setId_self {α : Type} (l : List (String × α)) (k : String) (v : α)
    (h : (lookupId l k).isSome) : lookupId (setId l k v) k = some v := by
  induction l with
  | nil => simp [lookupId] at h
  | cons hd t ih =>
      obtain ⟨k0, v0⟩ := hd
      by_cases hk : k0 = k
      · subst hk
        simp [setId, lookupId]
      · simp only [setId, if_neg hk, lookupId, if_neg hk]
        simp only [lookupId, if_neg hk] at h
        exact ih h

theorem map_fst_setId {α : Type} (l : List (String × α)) (k : String) (v : α) :
    (setId l k v).map Prod.fst = l.map Prod.fst := by
  induction l with
  | nil => rfl
  | cons hd t ih =>
      obtain ⟨k0, v0⟩ := hd
      by_cases hk : k0 = k
      · simp [setId, hk]
      · simp [setId, hk, ih]

theorem setId_setId {α : Type} (l : List (String × α)) (k : String) (v w : α) :
    setId (setId l k v) k w = setId l k w := by
  induction l with
  | nil => rfl
  | cons hd t ih =>
      obtain ⟨k0, v0⟩ := hd
      by_cases hk : k0 = k
      · simp [setId, hk]
      · simp [setId, hk, ih]

theorem lookupId_append {α : Type} (l m : List (String × α)) (i : String) :
    lookupId (l ++ m) i =
      match lookupId l i with
      | some v => some v
      | none => lookupId m i := by
  induction l with
  | nil => simp [lookupId]
  | cons hd t ih =>
      obtain ⟨k0, v0⟩ := hd
      by_cases hi : k0 = i
      · simp [lookupId, hi]
      · simp [lookupId, hi, ih]

theorem lookupId_isSome_iff {α : Type} (l : List (String × α)) (i : String) :
    (lookupId l i).isSome ↔ i ∈ l.map Prod.fst := by
  induction l with
  | nil => simp [lookupId]
  | cons hd t ih =>
      obtain ⟨k0, v0⟩ := hd
      by_cases hi : k0 = i
      · simp [lookupId, hi]
      · simp [lookupId, hi, ih, Ne.symm hi]

theorem lookupId_eq_none_iff {α : Type} (l : List (String × α)) (i : String) :
    lookupId l i = none ↔ i ∉ l.map Prod.fst := by
  rw [← lookupId_isSome_iff, Option.isSome_iff_ne_none]
  tauto

theorem lookupId_mem {α : Type} {l : List (String × α)} {i : String} {v : α}
    (h : lookupId l i = some v) : (i, v) ∈ l := by
  induction l with
  | nil => simp [lookupId] at h
  | cons hd t ih =>
      obtain ⟨k0, v0⟩ := hd
      simp only [lookupId] at h
      split at h
      · next heq =>
          cases h
          subst heq
          exact List.mem_cons_self _ _
      · exact List.mem_cons_of_mem _ (ih h)

theorem mem_lookupId {α : Type} {l : List (String × α)} {i : String} {v : α}
    (hnd : (l.map Prod.fst).Nodup) (h : (i, v) ∈ l) : lookupId l i = some v := by
  induction l with
  | nil => simp at h
  | cons hd t ih =>
      obtain ⟨k0, v0⟩ := hd
      simp only [List.map_cons, List.nodup_cons] at hnd
      simp only [lookupId]
      rcases List.mem_cons.1 h with h0 | h0
      · obtain ⟨rfl, rfl⟩ := Prod.mk.inj h0
        simp
      · have hne : k0 ≠ i := by
          intro he
          apply hnd.1
          rw [he]
          exact List.mem_map_of_mem Prod.fst h0
        rw [if_neg hne]
        exact ih hnd.2 h0

theorem removeId_sublist {α : Type} (l : List (String × α)) (k : String) :
    (removeId l k).Sublist l := by
  induction l with
  | nil => simp [removeId]
  | cons hd t ih =>
      obtain ⟨k0, v0⟩ := hd
      by_cases hk : k0 = k
      · simp only [removeId, if_pos hk]
        exact (List.sublist_cons_self _ _)
      · simp only [removeId, if_neg hk]
        exact List.Sublist.cons₂ _ ih

theorem map_fst_removeId_sublist {α : Type} (l : List (String × α)) (k : String) :
    ((removeId l k).map Prod.fst).Sublist (l.map Prod.fst) :=
  (removeId_sublist l k).map Prod.fst

theorem lookupId_removeId {α : Type} (l : List (String × α)) (k : String)
    (hnd : (l.map Prod.fst).Nodup) (i : String) :
    lookupId (removeId l k) i = if i = k then none else lookupId l i := by
  induction l with
  | nil => simp [removeId, lookupId]
  | cons hd t ih =>
      obtain ⟨k0, v0⟩ := hd
      simp only [List.map_cons, List.nodup_cons] at hnd
      by_cases hk : k0 = k
      · subst hk
        simp only [removeId, if_pos rfl, eq_self_iff_true, if_true]
        by_cases hi : i = k0
        · subst hi
          rw [if_pos rfl, lookupId_eq_none_iff]
          exact hnd.1
        · rw [if_neg hi]
          simp only [lookupId, if_neg (fun hh : k0 = i => hi hh.symm)]
      · simp only [removeId, if_neg hk, lookupId, ih hnd.2]
        by_cases hi : k0 = i
        · subst hi
          simp [hk]
        · simp [hi]

/-! ## Member-list lemmas

`linkedUsers`/`linkedGroups` abstract `usersLinkedTo`/`groupsLinkedTo`
over the two store fields they read, so the lemmas below apply to any
intermediate store.  Group-member step sums are computed edge by edge
through `edgeContrib`. -/

def linkedUsers (users : List (String × User)) (edges : List (String × String))
    (gid : String) : List User :=
  edges.filterMap fun e => if e.2 = gid then lookupId users e.1 else none

def linkedGroups (groups : List (String × Group)) (edges : List (String × String))
    (uid : String) : List Group :=
  edges.filterMap fun e => if e.1 = uid then lookupId groups e.2 else none

theorem usersLinkedTo_eq (db : DB) (gid : String) :
    usersLinkedTo db gid = linkedUsers db.users db.edges gid := rfl

theorem groupsLinkedTo_eq (db : DB) (uid : String) :
    groupsLinkedTo db uid = linkedGroups db.groups db.edges uid := rfl

/-- The contribution of one MEMBER_OF edge to the `f`-sum over the
members of group `gid`. -/
def edgeContrib (f : User → Int) (users : List (String × User)) (gid : String)
    (e : String × String) : Int :=
  if e.2 = gid then ((lookupId users e.1).map f).getD 0 else 0

theorem sum_linkedUsers (f : User → Int) (users : List (String × User))
    (edges : List (String × String)) (gid : String) :
    ((linkedUsers users edges gid).map f).sum
      = (edges.map (edgeContrib f users gid)).sum := by
  induction edges with
  | nil => rfl
  | cons e t ih =>
      obtain ⟨a, b⟩ := e
      simp only [linkedUsers, List.filterMap_cons, edgeContrib, List.map_cons,
        List.sum_cons] at *
      by_cases hb : b = gid
      · rw [if_pos hb, if_pos hb]
        cases h : lookupId users a <;> simp [ih, h]
      · rw [if_neg hb, if_neg hb]
        simp [ih]

theorem edgeContrib_setId_of_ne (f : User → Int) (users : List (String × User))
    (uid gid : String) (u1 : User) (e : String × String) (h : e ≠ (uid, gid)) :
    edgeContrib f (setId users uid u1) gid e = edgeContrib f users gid e := by
  unfold edgeContrib
  by_cases hb : e.2 = gid
  · rw [if_pos hb, if_pos hb]
    have ha : e.1 ≠ uid := by
      intro hh
      apply h
      obtain ⟨x, y⟩ := e
      simp only at hh hb
      rw [hh, hb]
    rw [lookupId_setId_ne _ _ _ _ ha]
  · rw [if_neg hb, if_neg hb]

theorem edgeContrib_self (f : User → Int) (users : List (String × User))
    (uid gid : String) (u : User) (hu : lookupId users uid = some u) :
    edgeContrib f users gid (uid, gid) = f u := by
  unfold edgeContrib
  simp [hu]

theorem sum_edges_setId (f : User → Int) (users : List (String × User))
    (edges : List (String × String)) (uid gid : String) (u u1 : User)
    (hnd : edges.Nodup) (hmem : (uid, gid) ∈ edges) (hu : lookupId users uid = some u) :
    (edges.map (edgeContrib f (setId users uid u1) gid)).sum
      = (edges.map (edgeContrib f users gid)).sum + (f u1 - f u) := by
  induction edges with
  | nil => simp at hmem
  | cons e t ih =>
      rw [List.nodup_cons] at hnd
      simp only [List.map_cons, List.sum_cons]
      rcases List.mem_cons.1 hmem with he | he
      · subst he
        rw [edgeContrib_self f _ uid gid u1
            (lookupId_setId_self users uid u1 (by rw [hu]; rfl)),
          edgeContrib_self f users uid gid u hu,
          List.map_congr_left (fun e2 he2 =>
            edgeContrib_setId_of_ne f users uid gid u1 e2
              (fun hh => hnd.1 (hh ▸ he2)))]
        ring
      · by_cases hee : e = (uid, gid)
        · exact absurd he (hee ▸ hnd.1)
        · rw [ih hnd.2 he, edgeContrib_setId_of_ne f users uid gid u1 e hee]
          ring

theorem pair_filter_true {uid gid : String} {e : String × String}
    (h : e ≠ (uid, gid)) :
    (!(decide (e.1 = uid) && decide (e.2 = gid))) = true := by
  obtain ⟨x, y⟩ := e
  by_cases hx : x = uid
  · by_cases hy : y = gid
    · exact absurd (by rw [hx, hy]) h
    · simp [hy]
  · simp [hx]

theorem filter_pair_eq_self (edges : List (String × String)) (uid gid : String)
    (h : (uid, gid) ∉ edges) :
    edges.filter (fun e => !(e.1 = uid && e.2 = gid)) = edges := by
  apply List.filter_eq_self.2
  intro e he
  exact pair_filter_true (fun hh => h (hh ▸ he))

theorem sum_edges_filter_pair (f : User → Int) (users : List (String × User))
    (edges : List (String × String)) (uid gid : String) (u : User)
    (hnd : edges.Nodup) (hmem : (uid, gid) ∈ edges) (hu : lookupId users uid = some u) :
    ((edges.filter fun e => !(e.1 = uid && e.2 = gid)).map
        (edgeContrib f users gid)).sum
      = (edges.map (edgeContrib f users gid)).sum - f u := by
  induction edges with
  | nil => simp at hmem
  | cons e t ih =>
      rw [List.nodup_cons] at hnd
      rcases List.mem_cons.1 hmem with he | he
      · subst he
        rw [@List.filter_cons_of_neg _ (fun e => !(e.1 = uid && e.2 = gid))
          (uid, gid) t (by simp)]
        rw [filter_pair_eq_self t uid gid hnd.1]
        simp only [List.map_cons, List.sum_cons]
        rw [edgeContrib_self f users uid gid u hu]
        ring
      · by_cases hee : e = (uid, gid)
        · exact absurd he (hee ▸ hnd.1)
        · rw [@List.filter_cons_of_pos _ (fun e => !(e.1 = uid && e.2 = gid))
            e t (pair_filter_true hee)]
          simp only [List.map_cons, List.sum_cons]
          rw [ih hnd.2 he]
          ring

theorem sum_edges_filter_ne (f : User → Int) (users : List (String × User))
    (k : String) (p : String × String → Bool)
    (hp : ∀ e, p e = false → e.2 ≠ k) (edges : List (String × String)) :
    ((edges.filter p).map (edgeContrib f users k)).sum
      = (edges.map (edgeContrib f users k)).sum := by
  induction edges with
  | nil => rfl
  | cons e t ih =>
      cases hpe : p e with
      | true =>
          rw [List.filter_cons_of_pos hpe]
          simp only [List.map_cons, List.sum_cons, ih]
      | false =>
          have hzero : edgeContrib f users k e = 0 := by
            unfold edgeContrib
            rw [if_neg (hp e hpe)]
          rw [List.filter_cons_of_neg (by simp [hpe])]
          simp only [List.map_cons, List.sum_cons, ih, hzero]
          ring

theorem sum_edges_append (f : User → Int) (users : List (String × User))
    (edges : List (String × String)) (e : String × String) (k : String) :
    ((edges ++ [e]).map (edgeContrib f users k)).sum
      = (edges.map (edgeContrib f users k)).sum + edgeContrib f users k e := by
  simp [List.map_append]

theorem mem_linkedGroups {groups : List (String × Group)}
    {edges : List (String × String)} {uid : String} {g : Group} :
    g ∈ linkedGroups groups edges uid
      ↔ ∃ b, (uid, b) ∈ edges ∧ lookupId groups b = some g := by
  unfold linkedGroups
  rw [List.mem_filterMap]
  constructor
  · rintro ⟨e, he, hfe⟩
    by_cases h1 : e.1 = uid
    · rw [if_pos h1] at hfe
      refine ⟨e.2, ?_, hfe⟩
      rw [← h1]
      exact he
    · rw [if_neg h1] at hfe
      simp at hfe
  · rintro ⟨b, hb, hlook⟩
    exact ⟨(uid, b), hb, by simp [hlook]⟩

theorem mem_linkedUsers {users : List (String × User)}
    {edges : List (String × String)} {gid : String} {u : User} :
    u ∈ linkedUsers users edges gid
      ↔ ∃ a, (a, gid) ∈ edges ∧ lookupId users a = some u := by
  unfold linkedUsers
  rw [List.mem_filterMap]
  constructor
  · rintro ⟨e, he, hfe⟩
    by_cases h2 : e.2 = gid
    · rw [if_pos h2] at hfe
      refine ⟨e.1, ?_, hfe⟩
      rw [← h2]
      exact he
    · rw [if_neg h2] at hfe
      simp at hfe
  · rintro ⟨a, ha, hlook⟩
    exact ⟨(a, gid), ha, by simp [hlook]⟩

theorem lookup_of_mem_linkedGroups {groups : List (String × Group)}
    {edges : List (String × String)} {uid : String} {g : Group}
    (hkeys : ∀ kg ∈ groups, Group.id kg.2 = kg.1)
    (h : g ∈ linkedGroups groups edges uid) :
    lookupId groups (Group.id g) = some g ∧ ∃ b, (uid, b) ∈ edges ∧ Group.id g = b := by
  obtain ⟨b, hb, hlook⟩ := mem_linkedGroups.1 h
  have hid : Group.id g = b := hkeys (b, g) (lookupId_mem hlook)
  exact ⟨hid ▸ hlook, b, hb, hid⟩

theorem nodup_map_id_linkedGroups (groups : List (String × Group))
    (edges : List (String × String)) (uid : String)
    (hkeys : ∀ kg ∈ groups, Group.id kg.2 = kg.1) (hnd : edges.Nodup) :
    ((linkedGroups groups edges uid).map Group.id).Nodup := by
  induction edges with
  | nil => simp [linkedGroups]
  | cons e t ih =>
      rw [List.nodup_cons] at hnd
      obtain ⟨a, b⟩ := e
      simp only [linkedGroups, List.filterMap_cons] at *
      by_cases h1 : a = uid
      · rw [if_pos (by simpa using h1)]
        cases hg : lookupId groups b with
        | none => exact ih hnd.2
        | some g =>
            simp only [List.map_cons, List.nodup_cons]
            refine ⟨?_, ih hnd.2⟩
            intro hmemid
            obtain ⟨g2, hg2, hideq⟩ := List.mem_map.1 hmemid
            obtain ⟨b2, hb2, hlook2⟩ := mem_linkedGroups.1 hg2
            have hidg : Group.id g = b := hkeys (b, g) (lookupId_mem hg)
            have hidg2 : Group.id g2 = b2 := hkeys (b2, g2) (lookupId_mem hlook2)
            apply hnd.1
            have hb2b : b2 = b := by rw [← hidg2, hideq, hidg]
            rw [h1, ← hb2b]
            exact hb2
      · rw [if_neg (by simpa using h1)]
        exact ih hnd.2

/-- Characterization of a sequence of `group_repo.update` calls over a
list of group snapshots with distinct ids: every call succeeds, only the
touched entries change, and each touched entry holds its updated
snapshot. -/
theorem foldlM_updateGroup (upd : Group → Group)
    (hid : ∀ g, Group.id (upd g) = Group.id g) :
    ∀ (gs : List Group) (db : DB), (gs.map Group.id).Nodup →
    (∀ g ∈ gs, lookupId db.groups (Group.id g) = some g) →
    ∃ db1, gs.foldlM (fun acc g => repoUpdateGroup acc (upd g)) db = Except.ok db1 ∧
      db1.users = db.users ∧ db1.edges = db.edges ∧
      db1.groups.map Prod.fst = db.groups.map Prod.fst ∧
      (∀ k, k ∉ gs.map Group.id → lookupId db1.groups k = lookupId db.groups k) ∧
      (∀ g ∈ gs, lookupId db1.groups (Group.id g) = some (upd g)) := by
  intro gs
  induction gs with
  | nil =>
      intro db _ _
      exact ⟨db, rfl, rfl, rfl, rfl, fun k _ => rfl, fun g hg => absurd hg (by simp)⟩
  | cons g rest ih =>
      intro db hnd hpres
      rw [List.map_cons, List.nodup_cons] at hnd
      have hg : lookupId db.groups (Group.id g) = some g :=
        hpres g (List.mem_cons_self _ _)
      have hstep : repoUpdateGroup db (upd g)
          = Except.ok { db with groups := setId db.groups (Group.id g) (upd g) } := by
        unfold repoUpdateGroup
        rw [hid g, hg]
      set db2 : DB := { db with groups := setId db.groups (Group.id g) (upd g) } with hdb2
      have hpres2 : ∀ g2 ∈ rest, lookupId db2.groups (Group.id g2) = some g2 := by
        intro g2 hg2
        have hne : Group.id g2 ≠ Group.id g := by
          intro he
          exact hnd.1 (he ▸ List.mem_map_of_mem Group.id hg2)
        rw [hdb2]
        simp only
        rw [lookupId_setId_ne _ _ _ _ hne]
        exact hpres g2 (List.mem_cons_of_mem _ hg2)
      obtain ⟨db1, hfold, hus, hed, hkeys, hframe, htouch⟩ := ih db2 hnd.2 hpres2
      refine ⟨db1, ?_, ?_, ?_, ?_, ?_, ?_⟩
      · rw [List.foldlM_cons, hstep]
        exact hfold
      · exact hus
      · exact hed
      · rw [hkeys, hdb2]
        simp only
        exact map_fst_setId db.groups (Group.id g) (upd g)
      · intro k hk
        simp only [List.map_cons, List.mem_cons] at hk
        push_neg at hk
        rw [hframe k hk.2, hdb2]
        simp only
        exact lookupId_setId_ne _ _ _ _ hk.1
      · intro g2 hg2
        rcases List.mem_cons.1 hg2 with hg2 | hg2
        · subst hg2
          rw [hframe (Group.id g2) hnd.1, hdb2]
          simp only
          exact lookupId_setId_self _ _ _ (by rw [hg]; rfl)
        · exact htouch g2 hg2

/-- Characterization of a sequence of `user_repo.update` calls over a
list of user snapshots with distinct ids. -/
theorem foldlM_updateUser (upd : User → User)
    (hid : ∀ u, User.id (upd u) = User.id u) :
    ∀ (us : List User) (db : DB), (us.map User.id).Nodup →
    (∀ u ∈ us, lookupId db.users (User.id u) = some u) →
    ∃ db1, us.foldlM (fun acc u => repoUpdateUser acc (upd u)) db = Except.ok db1 ∧
      db1.groups = db.groups ∧ db1.edges = db.edges ∧
      db1.users.map Prod.fst = db.users.map Prod.fst ∧
      (∀ k, k ∉ us.map User.id → lookupId db1.users k = lookupId db.users k) ∧
      (∀ u ∈ us, lookupId db1.users (User.id u) = some (upd u)) := by
  intro us
  induction us with
  | nil =>
      intro db _ _
      exact ⟨db, rfl, rfl, rfl, rfl, fun k _ => rfl, fun u hu => absurd hu (by simp)⟩
  | cons u rest ih =>
      intro db hnd hpres
      rw [List.map_cons, List.nodup_cons] at hnd
      have hu : lookupId db.users (User.id u) = some u :=
        hpres u (List.mem_cons_self _ _)
      have hstep : repoUpdateUser db (upd u)
          = Except.ok { db with users := setId db.users (User.id u) (upd u) } := by
        unfold repoUpdateUser
        rw [hid u, hu]
      set db2 : DB := { db with users := setId db.users (User.id u) (upd u) } with hdb2
      have hpres2 : ∀ u2 ∈ rest, lookupId db2.users (User.id u2) = some u2 := by
        intro u2 hu2
        have hne : User.id u2 ≠ User.id u := by
          intro he
          exact hnd.1 (he ▸ List.mem_map_of_mem User.id hu2)
        rw [hdb2]
        simp only
        rw [lookupId_setId_ne _ _ _ _ hne]
        exact hpres u2 (List.mem_cons_of_mem _ hu2)
      obtain ⟨db1, hfold, hgr, hed, hkeys, hframe, htouch⟩ := ih db2 hnd.2 hpres2
      refine ⟨db1, ?_, ?_, ?_, ?_, ?_, ?_⟩
      · rw [List.foldlM_cons, hstep]
        exact hfold
      · exact hgr
      · exact hed
      · rw [hkeys, hdb2]
        simp only
        exact map_fst_setId db.users (User.id u) (upd u)
      · intro k hk
        simp only [List.map_cons, List.mem_cons] at hk
        push_neg at hk
        rw [hframe k hk.2, hdb2]
        simp only
        exact lookupId_setId_ne _ _ _ _ hk.1
      · intro u2 hu2
        rcases List.mem_cons.1 hu2 with hu2 | hu2
        · subst hu2
          rw [hframe (User.id u2) hnd.1, hdb2]
          simp only
          exact lookupId_setId_self _ _ _ (by rw [hu]; rfl)
        · exact htouch u2 hu2

theorem map_id_get_all_users (users : List (String × User))
    (h : ∀ ku ∈ users, User.id ku.2 = ku.1) :
    (users.map Prod.snd).map User.id = users.map Prod.fst := by
  rw [List.map_map]
  exact List.map_congr_left h

theorem map_id_get_all_groups (groups : List (String × Group))
    (h : ∀ kg ∈ groups, Group.id kg.2 = kg.1) :
    (groups.map Prod.snd).map Group.id = groups.map Prod.fst := by
  rw [List.map_map]
  exact List.map_congr_left h

theorem lookup_get_all_users (users : List (String × User))
    (hnd : (users.map Prod.fst).Nodup) (hkeys : ∀ ku ∈ users, User.id ku.2 = ku.1) :
    ∀ u ∈ users.map Prod.snd, lookupId users (User.id u) = some u := by
  intro u hu
  obtain ⟨ku, hku, hsnd⟩ := List.mem_map.1 hu
  subst hsnd
  rw [hkeys ku hku]
  exact mem_lookupId hnd hku

theorem lookup_get_all_groups (groups : List (String × Group))
    (hnd : (groups.map Prod.fst).Nodup) (hkeys : ∀ kg ∈ groups, Group.id kg.2 = kg.1) :
    ∀ g ∈ groups.map Prod.snd, lookupId groups (Group.id g) = some g := by
  intro g hg
  obtain ⟨kg, hkg, hsnd⟩ := List.mem_map.1 hg
  subst hsnd
  rw [hkeys kg hkg]
  exact mem_lookupId hnd hkg

theorem ok_bind {ε α β : Type} (a : α) (f : α → Except ε β) :
    (do
      let x ← Except.ok a
      f x : Except ε β) = f a := rfl

theorem error_bind {ε α β : Type} (e : ε) (f : α → Except ε β) :
    (do
      let x ← (Except.error e : Except ε α)
      f x : Except ε β) = Except.error e := rfl

theorem id_of_lookup_user {users : List (String × User)} {uid : String} {u : User}
    (hkeys : ∀ ku ∈ users, User.id ku.2 = ku.1) (hu : lookupId users uid = some u) :
    User.id u = uid :=
  hkeys (uid, u) (lookupId_mem hu)

theorem id_of_lookup_group {groups : List (String × Group)} {gid : String} {g : Group}
    (hkeys : ∀ kg ∈ groups, Group.id kg.2 = kg.1) (hg : lookupId groups gid = some g) :
    Group.id g = gid :=
  hkeys (gid, g) (lookupId_mem hg)

/-- The aggregate invariant, in lookup form, as edge-contribution sums. -/
theorem groupAggInv_lookup {db : DB} (hinv : GroupAggInv db) :
    ∀ k g, lookupId db.groups k = some g →
      g.today_steps = (db.edges.map (edgeContrib User.today_steps db.users k)).sum ∧
      g.this_week_steps = (db.edges.map (edgeContrib User.this_week_steps db.users k)).sum := by
  intro k g hg
  have h := hinv (k, g) (lookupId_mem hg)
  constructor
  · rw [h.1]
    unfold todaySumOf
    rw [usersLinkedTo_eq, sum_linkedUsers]
  · rw [h.2]
    unfold weekSumOf
    rw [usersLinkedTo_eq, sum_linkedUsers]

/-- Sufficient lookup-form condition for the aggregate invariant. -/
theorem groupAggInv_of_lookup {db : DB} (hnd : (db.groups.map Prod.fst).Nodup)
    (h : ∀ k g, lookupId db.groups k = some g →
      g.today_steps = (db.edges.map (edgeContrib User.today_steps db.users k)).sum ∧
      g.this_week_steps = (db.edges.map (edgeContrib User.this_week_steps db.users k)).sum) :
    GroupAggInv db := by
  intro kg hkg
  have hl : lookupId db.groups kg.1 = some kg.2 := mem_lookupId hnd hkg
  have hk := h kg.1 kg.2 hl
  constructor
  · rw [hk.1]
    unfold todaySumOf
    rw [usersLinkedTo_eq, sum_linkedUsers]
  · rw [hk.2]
    unfold weekSumOf
    rw [usersLinkedTo_eq, sum_linkedUsers]

/-- `add_new_steps` on an absent user: NotFound. -/
theorem addNewSteps_notFound (db : DB) (uid : String) (steps : Int)
    (h : lookupId db.users uid = none) :
    addNewSteps db uid steps = Except.error (AppError.notFound "User not found") := by
  unfold addNewSteps getOneUser
  rw [h]
  rfl

/-- Master characterization of a successful `add_new_steps` call:
the user's two counters are raised by the delta and persisted, every
group the user belongs to has its two counters raised by the delta and
is persisted, and nothing else changes. -/
theorem addNewSteps_ok (db : DB) (uid : String) (steps : Int) (u : User)
    (hWF : WF db) (hu : lookupId db.users uid = some u) :
    ∃ db1, addNewSteps db uid steps = Except.ok db1 ∧
      db1.users.map Prod.fst = db.users.map Prod.fst ∧
      db1.groups.map Prod.fst = db.groups.map Prod.fst ∧
      db1.edges = db.edges ∧
      db1.users = setId db.users uid (User.bump u steps) ∧
      (∀ k g, lookupId db.groups k = some g →
        lookupId db1.groups k =
          some (if (uid, k) ∈ db.edges then Group.bump g steps else g)) := by
  obtain ⟨hukeys, hgkeys, hund, hgnd, hend, hedge⟩ := hWF
  have huid : User.id u = uid := id_of_lookup_user hukeys hu
  have hbid : User.id (User.bump u steps) = uid := huid
  have hstep1 : repoUpdateUser db (User.bump u steps)
      = Except.ok { db with users := setId db.users uid (User.bump u steps) } := by
    unfold repoUpdateUser
    rw [hbid, hu]
  set dbu : DB := { db with users := setId db.users uid (User.bump u steps) } with hdbu
  have hlu : lookupId dbu.users uid = some (User.bump u steps) := by
    rw [hdbu]
    exact lookupId_setId_self _ _ _ (by rw [hu]; rfl)
  have hgs : getGroupsOfUser dbu uid = Except.ok (groupsLinkedTo dbu uid) := by
    unfold getGroupsOfUser
    rw [hlu]
  have hgsame : groupsLinkedTo dbu uid = linkedGroups db.groups db.edges uid := rfl
  have hnodup : ((linkedGroups db.groups db.edges uid).map Group.id).Nodup :=
    nodup_map_id_linkedGroups db.groups db.edges uid hgkeys hend
  have hpres : ∀ g ∈ linkedGroups db.groups db.edges uid,
      lookupId dbu.groups (Group.id g) = some g := by
    intro g hg
    exact (lookup_of_mem_linkedGroups hgkeys hg).1
  obtain ⟨db1, hfold, hus1, hed1, hkeys1, hframe1, htouch1⟩ :=
    foldlM_updateGroup (fun g => Group.bump g steps) (fun g => rfl)
      (linkedGroups db.groups db.edges uid) dbu hnodup hpres
  refine ⟨db1, ?_, ?_, ?_, ?_, ?_, ?_⟩
  · unfold addNewSteps getOneUser
    rw [hu]
    simp only [ok_bind]
    rw [hstep1]
    simp only [ok_bind]
    rw [hgs]
    simp only [ok_bind]
    rw [hgsame]
    exact hfold
  · rw [hus1, hdbu]
    exact map_fst_setId db.users uid (User.bump u steps)
  · exact hkeys1
  · exact hed1
  · rw [hus1]
  · intro k g hg
    by_cases hmem : (uid, k) ∈ db.edges
    · have hgid : Group.id g = k := id_of_lookup_group hgkeys hg
      have hgin : g ∈ linkedGroups db.groups db.edges uid :=
        mem_linkedGroups.2 ⟨k, hmem, hg⟩
      rw [if_pos hmem, ← hgid]
      exact htouch1 g hgin
    · have hnotin : k ∉ (linkedGroups db.groups db.edges uid).map Group.id := by
        intro hin
        obtain ⟨g2, hg2, hid2⟩ := List.mem_map.1 hin
        obtain ⟨_, b, hb, hidb⟩ := lookup_of_mem_linkedGroups hgkeys hg2
        rw [hid2] at hidb
        exact hmem (hidb ▸ hb)
      rw [if_neg hmem, hframe1 k hnotin]
      exact hg

/-- A successful `add_new_steps` preserves well-formedness and the
aggregate invariant. -/
theorem addNewSteps_ok_inv (db : DB) (uid : String) (steps : Int) (db1 : DB)
    (hWF : WF db) (hinv : GroupAggInv db)
    (h : addNewSteps db uid steps = Except.ok db1) : WF db1 ∧ GroupAggInv db1 := by
  cases hu : lookupId db.users uid with
  | none =>
      rw [addNewSteps_notFound db uid steps hu] at h
      cases h
  | some u =>
      obtain ⟨db1x, hx, hauskeys, hagkeys, haed, husers, hgr⟩ :=
        addNewSteps_ok db uid steps u hWF hu
      rw [h] at hx
      injection hx with hx
      subst hx
      obtain ⟨hukeys, hgkeys, hund, hgnd, hend, hedge⟩ := hWF
      have huid : User.id u = uid := id_of_lookup_user hukeys hu
      have hund1 : (db1.users.map Prod.fst).Nodup := by
        rw [hauskeys]
        exact hund
      have hgnd1 : (db1.groups.map Prod.fst).Nodup := by
        rw [hagkeys]
        exact hgnd
      have hgr2 : ∀ k v, lookupId db1.groups k = some v →
          ∃ g, lookupId db.groups k = some g ∧
            v = (if (uid, k) ∈ db.edges then Group.bump g steps else g) := by
        intro k v hv
        have hkmem : k ∈ db.groups.map Prod.fst := by
          rw [← hagkeys]
          exact (lookupId_isSome_iff db1.groups k).1 (by rw [hv]; rfl)
        obtain ⟨g, hg⟩ := Option.isSome_iff_exists.1
          ((lookupId_isSome_iff db.groups k).2 hkmem)
        refine ⟨g, hg, ?_⟩
        have hh := hgr k g hg
        rw [hv] at hh
        exact Option.some.inj hh
      have husers2 : ∀ k v, lookupId db1.users k = some v →
          (k = uid ∧ v = User.bump u steps) ∨ (k ≠ uid ∧ lookupId db.users k = some v) := by
        intro k v hv
        rw [husers] at hv
        by_cases hk : k = uid
        · rw [hk, lookupId_setId_self _ _ _ (by rw [hu]; rfl)] at hv
          injection hv with hv
          exact Or.inl ⟨hk, hv.symm⟩
        · rw [lookupId_setId_ne _ _ _ _ hk] at hv
          exact Or.inr ⟨hk, hv⟩
      constructor
      · refine ⟨?_, ?_, hund1, hgnd1, by rw [haed]; exact hend, ?_⟩
        · intro ku hku
          rcases husers2 ku.1 ku.2 (mem_lookupId hund1 hku) with ⟨hk, hv⟩ | ⟨_, hv⟩
          · rw [hv, hk]
            exact huid
          · exact hukeys (ku.1, ku.2) (lookupId_mem hv)
        · intro kg hkg
          rcases hgr2 kg.1 kg.2 (mem_lookupId hgnd1 hkg) with ⟨g, hg, hv⟩
          have hgid : Group.id g = kg.1 := id_of_lookup_group hgkeys hg
          rw [hv]
          by_cases hm : (uid, kg.1) ∈ db.edges
          · rw [if_pos hm]
            exact hgid
          · rw [if_neg hm]
            exact hgid
        · intro e he
          rw [haed] at he
          constructor
          · rw [lookupId_isSome_iff, hauskeys, ← lookupId_isSome_iff]
            exact (hedge e he).1
          · rw [lookupId_isSome_iff, hagkeys, ← lookupId_isSome_iff]
            exact (hedge e he).2
      · apply groupAggInv_of_lookup hgnd1
        intro k v hv
        rcases hgr2 k v hv with ⟨g, hg, hveq⟩
        have hold := groupAggInv_lookup hinv k g hg
        rw [haed, husers]
        by_cases hm : (uid, k) ∈ db.edges
        · rw [hveq, if_pos hm]
          constructor
          · rw [sum_edges_setId User.today_steps db.users db.edges uid k u
              (User.bump u steps) hend hm hu, ← hold.1]
            simp only [Group.bump, User.bump]
            ring
          · rw [sum_edges_setId User.this_week_steps db.users db.edges uid k u
              (User.bump u steps) hend hm hu, ← hold.2]
            simp only [Group.bump, User.bump]
            ring
        · rw [hveq, if_neg hm]
          have hcongT : db.edges.map
                (edgeContrib User.today_steps (setId db.users uid (User.bump u steps)) k)
              = db.edges.map (edgeContrib User.today_steps db.users k) :=
            List.map_congr_left
              (fun e he => edgeContrib_setId_of_ne User.today_steps db.users uid k
                (User.bump u steps) e (fun hh => hm (hh ▸ he)))
          have hcongW : db.edges.map
                (edgeContrib User.this_week_steps (setId db.users uid (User.bump u steps)) k)
              = db.edges.map (edgeContrib User.this_week_steps db.users k) :=
            List.map_congr_left
              (fun e he => edgeContrib_setId_of_ne User.this_week_steps db.users uid k
                (User.bump u steps) e (fun hh => hm (hh ▸ he)))
          rw [hcongT, hcongW]
          exact hold

theorem getGroupsOfUser_none (db : DB) (uid : String)
    (h : lookupId db.users uid = none) :
    getGroupsOfUser db uid = Except.error (AppError.notFound "User not found") := by
  unfold getGroupsOfUser
  rw [h]

theorem getGroupsOfUser_some (db : DB) (uid : String) (u : User)
    (h : lookupId db.users uid = some u) :
    getGroupsOfUser db uid = Except.ok (groupsLinkedTo db uid) := by
  unfold getGroupsOfUser
  rw [h]

theorem group_keys_setId (groups : List (String × Group)) (gid : String) (g1 : Group)
    (hkeys : ∀ kg ∈ groups, Group.id kg.2 = kg.1)
    (hnd : (groups.map Prod.fst).Nodup)
    (hpres : (lookupId groups gid).isSome) (hid : Group.id g1 = gid) :
    ∀ kg ∈ setId groups gid g1, Group.id kg.2 = kg.1 := by
  intro kg hkg
  have hl := mem_lookupId (by rw [map_fst_setId]; exact hnd) hkg
  by_cases hk : kg.1 = gid
  · rw [hk, lookupId_setId_self _ _ _ hpres] at hl
    have hv := Option.some.inj hl
    rw [← hv, hid]
    exact hk.symm
  · rw [lookupId_setId_ne _ _ _ _ hk] at hl
    exact hkeys (kg.1, kg.2) (lookupId_mem hl)

theorem notMem_edges_of_notin_linked {db : DB} {uid gid : String} {g : Group}
    (hgkeys : ∀ kg ∈ db.groups, Group.id kg.2 = kg.1)
    (hg : lookupId db.groups gid = some g)
    (hnotin : gid ∉ (groupsLinkedTo db uid).map Group.id) :
    (uid, gid) ∉ db.edges := by
  intro hmem
  apply hnotin
  have hgin : g ∈ linkedGroups db.groups db.edges uid :=
    mem_linkedGroups.2 ⟨gid, hmem, hg⟩
  rw [groupsLinkedTo_eq]
  have hgid : Group.id g = gid := id_of_lookup_group hgkeys hg
  exact hgid ▸ List.mem_map_of_mem Group.id hgin

/-- Master characterization of a successful `add_member_to_group` call:
the edge is created and the user's counters are added onto the group's. -/
theorem addMemberToGroup_ok (db : DB) (uid gid : String) (u : User) (g : Group)
    (hWF : WF db) (hu : lookupId db.users uid = some u)
    (hg : lookupId db.groups gid = some g)
    (hnotin : gid ∉ (groupsLinkedTo db uid).map Group.id) :
    addMemberToGroup db uid gid = Except.ok
      { users := db.users,
        groups := setId db.groups gid
          { g with today_steps := g.today_steps + u.today_steps,
                   this_week_steps := g.this_week_steps + u.this_week_steps },
        edges := db.edges ++ [(uid, gid)] } := by
  obtain ⟨hukeys, hgkeys, hund, hgnd, hend, hedge⟩ := hWF
  unfold addMemberToGroup
  rw [getGroupsOfUser_some db uid u hu]
  simp only [ok_bind]
  rw [if_neg hnotin]
  have hadd : repoAddMember db uid gid
      = Except.ok { db with edges := db.edges ++ [(uid, gid)] } := by
    unfold repoAddMember
    rw [hg, hu]
  rw [hadd]
  simp only [ok_bind]
  have hu2 : getOneUser { db with edges := db.edges ++ [(uid, gid)] } uid
      = Except.ok u := by
    unfold getOneUser
    rw [hu]
  have hg2 : getOneGroup { db with edges := db.edges ++ [(uid, gid)] } gid
      = Except.ok g := by
    unfold getOneGroup
    rw [hg]
  rw [hu2]
  simp only [ok_bind]
  rw [hg2]
  simp only [ok_bind]
  unfold repoUpdateGroup
  have hgid0 : Group.id g = gid := id_of_lookup_group hgkeys hg
  have hgid : Group.id
      { g with today_steps := g.today_steps + u.today_steps,
               this_week_steps := g.this_week_steps + u.this_week_steps } = gid := hgid0
  rw [hgid, hg]

/-- A successful `add_member_to_group` preserves well-formedness and the
aggregate invariant (the group gains one member and that member's
counters at once). -/
theorem addMemberToGroup_ok_inv (db : DB) (uid gid : String) (db1 : DB)
    (hWF : WF db) (hinv : GroupAggInv db)
    (h : addMemberToGroup db uid gid = Except.ok db1) : WF db1 ∧ GroupAggInv db1 := by
  cases hu : lookupId db.users uid with
  | none =>
      unfold addMemberToGroup at h
      rw [getGroupsOfUser_none db uid hu] at h
      simp only [error_bind] at h
      cases h
  | some u =>
      unfold addMemberToGroup at h
      rw [getGroupsOfUser_some db uid u hu] at h
      simp only [ok_bind] at h
      by_cases hin : gid ∈ (groupsLinkedTo db uid).map Group.id
      · rw [if_pos hin] at h
        cases h
      · rw [if_neg hin] at h
        cases hg : lookupId db.groups gid with
        | none =>
            unfold repoAddMember at h
            rw [hg] at h
            simp only [error_bind] at h
            cases h
        | some g =>
            have hfull := addMemberToGroup_ok db uid gid u g hWF hu hg hin
            unfold addMemberToGroup at hfull
            rw [getGroupsOfUser_some db uid u hu] at hfull
            simp only [ok_bind] at hfull
            rw [if_neg hin] at hfull
            rw [hfull] at h
            injection h with h
            subst h
            obtain ⟨hukeys, hgkeys, hund, hgnd, hend, hedge⟩ := hWF
            have hgid : Group.id g = gid := id_of_lookup_group hgkeys hg
            have hnotmem : (uid, gid) ∉ db.edges :=
              notMem_edges_of_notin_linked hgkeys hg hin
            set g1 : Group :=
              { g with today_steps := g.today_steps + u.today_steps,
                       this_week_steps := g.this_week_steps + u.this_week_steps } with hg1
            have hg1id : Group.id g1 = gid := hgid
            have hgnd1 : ((setId db.groups gid g1).map Prod.fst).Nodup := by
              rw [map_fst_setId]
              exact hgnd
            have hend1 : (db.edges ++ [(uid, gid)]).Nodup := by
              rw [List.nodup_append]
              refine ⟨hend, List.nodup_singleton _, ?_⟩
              intro a ha hb
              have heq : a = (uid, gid) := by simpa using hb
              exact hnotmem (heq ▸ ha)
            constructor
            · refine ⟨hukeys, ?_, hund, hgnd1, hend1, ?_⟩
              · exact group_keys_setId db.groups gid g1 hgkeys hgnd
                  (by rw [hg]; rfl) hg1id
              · intro e he
                rcases List.mem_append.1 he with he | he
                · refine ⟨(hedge e he).1, ?_⟩
                  rw [lookupId_isSome_iff, map_fst_setId, ← lookupId_isSome_iff]
                  exact (hedge e he).2
                · have heq : e = (uid, gid) := by simpa using he
                  subst heq
                  refine ⟨by rw [hu]; rfl, ?_⟩
                  rw [lookupId_setId_self _ _ _ (by rw [hg]; rfl)]
                  rfl
            · apply groupAggInv_of_lookup hgnd1
              intro k v hv
              by_cases hk : k = gid
              · subst hk
                rw [lookupId_setId_self _ _ _ (by rw [hg]; rfl)] at hv
                have hveq := Option.some.inj hv
                subst hveq
                have hold := groupAggInv_lookup hinv k g hg
                constructor
                · rw [sum_edges_append, edgeContrib_self User.today_steps db.users
                    uid k u hu, ← hold.1]
                · rw [sum_edges_append, edgeContrib_self User.this_week_steps db.users
                    uid k u hu, ← hold.2]
              · rw [lookupId_setId_ne _ _ _ _ hk] at hv
                have hold := groupAggInv_lookup hinv k v hv
                have hzero : edgeContrib User.today_steps db.users k (uid, gid) = 0 := by
                  unfold edgeContrib
                  rw [if_neg (fun hh : gid = k => hk hh.symm)]
                have hzeroW : edgeContrib User.this_week_steps db.users k (uid, gid) = 0 := by
                  unfold edgeContrib
                  rw [if_neg (fun hh : gid = k => hk hh.symm)]
                constructor
                · rw [sum_edges_append, hzero, ← hold.1]
                  ring
                · rw [sum_edges_append, hzeroW, ← hold.2]
                  ring

theorem pair_filter_false {uid gid : String} {e : String × String}
    (h : (!(decide (e.1 = uid) && decide (e.2 = gid))) = false) : e.2 = gid := by
  have hand : (decide (e.1 = uid) && decide (e.2 = gid)) = true := by
    cases hx : (decide (e.1 = uid) && decide (e.2 = gid)) with
    | true => rfl
    | false =>
        rw [hx] at h
        cases h
  simp only [Bool.and_eq_true, decide_eq_true_eq] at hand
  exact hand.2

theorem removeMemberFromGroup_groupAbsent (db : DB) (uid gid : String)
    (h : lookupId db.groups gid = none) :
    removeMemberFromGroup db uid gid
      = Except.error (AppError.notFound "Group not found") := by
  unfold removeMemberFromGroup
  have hr : repoRemoveMember db uid gid
      = Except.error (AppError.notFound "Group not found") := by
    unfold repoRemoveMember
    rw [h]
  rw [hr]
  simp only [error_bind]

theorem removeMemberFromGroup_userAbsent (db : DB) (uid gid : String) (g : Group)
    (hg : lookupId db.groups gid = some g) (hu : lookupId db.users uid = none) :
    removeMemberFromGroup db uid gid
      = Except.error (AppError.notFound "User not found") := by
  unfold removeMemberFromGroup
  have hr : repoRemoveMember db uid gid
      = Except.error (AppError.notFound "User not found") := by
    unfold repoRemoveMember
    rw [hg, hu]
  rw [hr]
  simp only [error_bind]

/-- Master characterization of `remove_member_from_group` when both the
group and the user exist (whether or not the membership relation does):
the user's edges to the group are removed; if no member remains the
group is deleted, otherwise the user's counters are subtracted from the
group's and the group persisted. -/
theorem removeMemberFromGroup_ok (db : DB) (uid gid : String) (u : User) (g : Group)
    (hWF : WF db) (hu : lookupId db.users uid = some u)
    (hg : lookupId db.groups gid = some g) :
    removeMemberFromGroup db uid gid =
      (if (linkedUsers db.users
            (db.edges.filter fun e => !(e.1 = uid && e.2 = gid)) gid).isEmpty then
        Except.ok
          { users := db.users,
            groups := removeId db.groups gid,
            edges := (db.edges.filter fun e => !(e.1 = uid && e.2 = gid)).filter
                (fun e => !(e.2 = gid)) }
      else
        Except.ok
          { users := db.users,
            groups := setId db.groups gid
                { g with today_steps := g.today_steps - u.today_steps,
                         this_week_steps := g.this_week_steps - u.this_week_steps },
            edges := db.edges.filter fun e => !(e.1 = uid && e.2 = gid) }) := by
  obtain ⟨hukeys, hgkeys, hund, hgnd, hend, hedge⟩ := hWF
  unfold removeMemberFromGroup
  have hr : repoRemoveMember db uid gid = Except.ok
      { db with edges := db.edges.filter fun e => !(e.1 = uid && e.2 = gid) } := by
    unfold repoRemoveMember
    rw [hg, hu]
  rw [hr]
  simp only [ok_bind]
  set db2 : DB :=
    { db with edges := db.edges.filter fun e => !(e.1 = uid && e.2 = gid) } with hdb2
  have hm : getMembersOfGroup db2 gid = Except.ok (usersLinkedTo db2 gid) := by
    unfold getMembersOfGroup
    rw [hdb2]
    simp only
    rw [hg]
  rw [hm]
  simp only [ok_bind]
  have husl : usersLinkedTo db2 gid
      = linkedUsers db.users (db.edges.filter fun e => !(e.1 = uid && e.2 = gid)) gid := rfl
  rw [husl]
  by_cases hE : (linkedUsers db.users
      (db.edges.filter fun e => !(e.1 = uid && e.2 = gid)) gid).isEmpty
  · rw [if_pos hE, if_pos hE]
    unfold repoDeleteGroup
    rw [hdb2]
    simp only
    rw [hg]
  · rw [if_neg hE, if_neg hE]
    have hu2 : getOneUser db2 uid = Except.ok u := by
      unfold getOneUser
      rw [hdb2]
      simp only
      rw [hu]
    have hg2 : getOneGroup db2 gid = Except.ok g := by
      unfold getOneGroup
      rw [hdb2]
      simp only
      rw [hg]
    rw [hu2]
    simp only [ok_bind]
    rw [hg2]
    simp only [ok_bind]
    unfold repoUpdateGroup
    have hgid0 : Group.id g = gid := id_of_lookup_group hgkeys hg
    have hgid : Group.id
        { g with today_steps := g.today_steps - u.today_steps,
                 this_week_steps := g.this_week_steps - u.this_week_steps } = gid := hgid0
    rw [hgid, hdb2]
    simp only
    rw [hg]

/-- A successful `remove_member_from_group` that removes an actual
member preserves well-formedness and the aggregate invariant. -/
theorem removeMemberFromGroup_ok_inv (db : DB) (uid gid : String) (db1 : DB)
    (hWF : WF db) (hinv : GroupAggInv db) (hmem : (uid, gid) ∈ db.edges)
    (h : removeMemberFromGroup db uid gid = Except.ok db1) :
    WF db1 ∧ GroupAggInv db1 := by
  cases hgl : lookupId db.groups gid with
  | none =>
      rw [removeMemberFromGroup_groupAbsent db uid gid hgl] at h
      cases h
  | some g =>
  cases hul : lookupId db.users uid with
  | none =>
      rw [removeMemberFromGroup_userAbsent db uid gid g hgl hul] at h
      cases h
  | some u =>
  rw [removeMemberFromGroup_ok db uid gid u g hWF hul hgl] at h
  obtain ⟨hukeys, hgkeys, hund, hgnd, hend, hedge⟩ := hWF
  set edges1 : List (String × String) :=
    db.edges.filter fun e => !(e.1 = uid && e.2 = gid) with hedges1
  have hsub1 : edges1.Sublist db.edges := List.filter_sublist db.edges
  have hend1 : edges1.Nodup := hend.sublist hsub1
  by_cases hE : (linkedUsers db.users edges1 gid).isEmpty
  · rw [if_pos hE] at h
    injection h with h
    subst h
    have hgnd1 : ((removeId db.groups gid).map Prod.fst).Nodup :=
      hgnd.sublist (map_fst_removeId_sublist db.groups gid)
    have hsub2 : ((edges1.filter fun e => !(e.2 = gid)).Sublist edges1) :=
      List.filter_sublist edges1
    constructor
    · refine ⟨hukeys, ?_, hund, hgnd1, hend1.sublist hsub2, ?_⟩
      · intro kg hkg
        exact hgkeys kg ((removeId_sublist db.groups gid).subset hkg)
      · intro e he
        obtain ⟨he1a, he1b⟩ := List.mem_filter.1 he
        have he2 : e ∈ db.edges := hsub1.subset he1a
        have hne : e.2 ≠ gid := by
          simp only [Bool.not_eq_true', decide_eq_false_iff_not] at he1b
          exact he1b
        refine ⟨(hedge e he2).1, ?_⟩
        rw [lookupId_removeId db.groups gid hgnd, if_neg hne]
        exact (hedge e he2).2
    · apply groupAggInv_of_lookup hgnd1
      intro k v hv
      rw [lookupId_removeId db.groups gid hgnd] at hv
      by_cases hk : k = gid
      · rw [if_pos hk] at hv
        cases hv
      · rw [if_neg hk] at hv
        have hold := groupAggInv_lookup hinv k v hv
        have hs2 : (((edges1.filter fun e => !(e.2 = gid)).map
            (edgeContrib User.today_steps db.users k)).sum)
            = ((edges1.map (edgeContrib User.today_steps db.users k)).sum) := by
          apply sum_edges_filter_ne
          intro e hpe
          have hg2 : e.2 = gid := by
            simp at hpe
            exact hpe
          rw [hg2]
          exact fun hh => hk hh.symm
        have hs2W : (((edges1.filter fun e => !(e.2 = gid)).map
            (edgeContrib User.this_week_steps db.users k)).sum)
            = ((edges1.map (edgeContrib User.this_week_steps db.users k)).sum) := by
          apply sum_edges_filter_ne
          intro e hpe
          have hg2 : e.2 = gid := by
            simp at hpe
            exact hpe
          rw [hg2]
          exact fun hh => hk hh.symm
        have hs1 : ((edges1.map (edgeContrib User.today_steps db.users k)).sum)
            = ((db.edges.map (edgeContrib User.today_steps db.users k)).sum) := by
          apply sum_edges_filter_ne
          intro e hpe
          rw [pair_filter_false hpe]
          exact fun hh => hk hh.symm
        have hs1W : ((edges1.map (edgeContrib User.this_week_steps db.users k)).sum)
            = ((db.edges.map (edgeContrib User.this_week_steps db.users k)).sum) := by
          apply sum_edges_filter_ne
          intro e hpe
          rw [pair_filter_false hpe]
          exact fun hh => hk hh.symm
        exact ⟨by rw [hs2, hs1]; exact hold.1, by rw [hs2W, hs1W]; exact hold.2⟩
  · rw [if_neg hE] at h
    injection h with h
    subst h
    set g2 : Group :=
      { g with today_steps := g.today_steps - u.today_steps,
               this_week_steps := g.this_week_steps - u.this_week_steps } with hg2
    have hg2id0 : Group.id g = gid := id_of_lookup_group hgkeys hgl
    have hg2id : Group.id g2 = gid := hg2id0
    have hgnd1 : ((setId db.groups gid g2).map Prod.fst).Nodup := by
      rw [map_fst_setId]
      exact hgnd
    constructor
    · refine ⟨hukeys, ?_, hund, hgnd1, hend1, ?_⟩
      · exact group_keys_setId db.groups gid g2 hgkeys hgnd (by rw [hgl]; rfl) hg2id
      · intro e he
        have he2 : e ∈ db.edges := hsub1.subset he
        refine ⟨(hedge e he2).1, ?_⟩
        rw [lookupId_isSome_iff, map_fst_setId, ← lookupId_isSome_iff]
        exact (hedge e he2).2
    · apply groupAggInv_of_lookup hgnd1
      intro k v hv
      by_cases hk : k = gid
      · subst hk
        rw [lookupId_setId_self _ _ _ (by rw [hgl]; rfl)] at hv
        have hveq := Option.some.inj hv
        subst hveq
        have hold := groupAggInv_lookup hinv k g hgl
        constructor
        · rw [sum_edges_filter_pair User.today_steps db.users db.edges uid k u
            hend hmem hul, ← hold.1]
        · rw [sum_edges_filter_pair User.this_week_steps db.users db.edges uid k u
            hend hmem hul, ← hold.2]
      · rw [lookupId_setId_ne _ _ _ _ hk] at hv
        have hold := groupAggInv_lookup hinv k v hv
        have hs1 : ((edges1.map (edgeContrib User.today_steps db.users k)).sum)
            = ((db.edges.map (edgeContrib User.today_steps db.users k)).sum) := by
          apply sum_edges_filter_ne
          intro e hpe
          rw [pair_filter_false hpe]
          exact fun hh => hk hh.symm
        have hs1W : ((edges1.map (edgeContrib User.this_week_steps db.users k)).sum)
            = ((db.edges.map (edgeContrib User.this_week_steps db.users k)).sum) := by
          apply sum_edges_filter_ne
          intro e hpe
          rw [pair_filter_false hpe]
          exact fun hh => hk hh.symm
        exact ⟨by rw [hs1]; exact hold.1, by rw [hs1W]; exact hold.2⟩

theorem createGroupEndpoint_userAbsent (db : DB) (uid nick nm : String)
    (hu : lookupId db.users uid = none) :
    createGroupEndpoint db uid nick nm
      = Except.error (AppError.notFound "User not found") := by
  unfold createGroupEndpoint getOneUser
  rw [hu]
  simp only [error_bind]

theorem createGroupEndpoint_hasGroup (db : DB) (uid nick nm : String) (u : User)
    (hukeys : ∀ ku ∈ db.users, User.id ku.2 = ku.1)
    (hu : lookupId db.users uid = some u)
    (hne : (groupsLinkedTo db uid).isEmpty = false) :
    createGroupEndpoint db uid nick nm
      = Except.error (AppError.duplicate "The user already has a group") := by
  have huid : User.id u = uid := id_of_lookup_user hukeys hu
  unfold createGroupEndpoint getOneUser
  rw [hu]
  simp only [ok_bind]
  unfold addGroup
  rw [huid, getGroupsOfUser_some db uid u hu]
  simp only [ok_bind]
  rw [hne]
  rfl

theorem createGroupEndpoint_nickTaken (db : DB) (uid nick nm : String) (u : User)
    (hukeys : ∀ ku ∈ db.users, User.id ku.2 = ku.1)
    (hu : lookupId db.users uid = some u)
    (hempty : groupsLinkedTo db uid = [])
    (g0 : Group) (hfr : lookupId db.groups nick = some g0) :
    createGroupEndpoint db uid nick nm
      = Except.error (AppError.duplicate "Group already exists") := by
  have huid : User.id u = uid := id_of_lookup_user hukeys hu
  unfold createGroupEndpoint getOneUser
  rw [hu]
  simp only [ok_bind]
  unfold addGroup
  rw [huid, getGroupsOfUser_some db uid u hu]
  simp only [ok_bind]
  rw [hempty]
  have hmkid : Group.id (Group.make nick nm) = nick := rfl
  have hadd : repoAddGroup db (Group.make nick nm)
      = Except.error (AppError.duplicate "Group already exists") := by
    unfold repoAddGroup
    rw [hmkid, hfr]
  simp only [List.isEmpty_nil, if_true]
  rw [hadd]
  simp only [error_bind]

/-- Master characterization of a successful `create_group` request: the
group is created with the default (zero) aggregates and a membership
edge from the creator, with no step seeding. -/
theorem createGroupEndpoint_ok (db : DB) (uid nick nm : String) (u : User)
    (hWF : WF db) (hu : lookupId db.users uid = some u)
    (hempty : groupsLinkedTo db uid = [])
    (hfresh : lookupId db.groups nick = none) :
    createGroupEndpoint db uid nick nm = Except.ok
      { users := db.users,
        groups := db.groups ++ [(nick, Group.make nick nm)],
        edges := db.edges ++ [(uid, nick)] } := by
  obtain ⟨hukeys, hgkeys, hund, hgnd, hend, hedge⟩ := hWF
  have huid : User.id u = uid := id_of_lookup_user hukeys hu
  unfold createGroupEndpoint getOneUser
  rw [hu]
  simp only [ok_bind]
  unfold addGroup
  rw [huid, getGroupsOfUser_some db uid u hu]
  simp only [ok_bind]
  rw [hempty]
  simp only [List.isEmpty_nil, if_true]
  have hmkid : Group.id (Group.make nick nm) = nick := rfl
  have hadd : repoAddGroup db (Group.make nick nm) = Except.ok
      { db with groups := db.groups ++ [(nick, Group.make nick nm)] } := by
    unfold repoAddGroup
    rw [hmkid, hfresh]
  rw [hadd]
  simp only [ok_bind]
  unfold repoAddMember
  rw [hmkid]
  have hlg : lookupId (db.groups ++ [(nick, Group.make nick nm)]) nick
      = some (Group.make nick nm) := by
    rw [lookupId_append, hfresh]
    simp [lookupId]
  have hlg2 : lookupId
      ({ db with groups := db.groups ++ [(nick, Group.make nick nm)] } : DB).groups nick
      = some (Group.make nick nm) := hlg
  rw [hlg2, hu]

/-- A successful `create_group` by a creator whose counters are both
zero preserves well-formedness and the aggregate invariant. -/
theorem createGroupEndpoint_ok_inv (db : DB) (uid nick nm : String) (db1 : DB)
    (hWF : WF db) (hinv : GroupAggInv db)
    (hzero : ∀ u, lookupId db.users uid = some u →
      u.today_steps = 0 ∧ u.this_week_steps = 0)
    (h : createGroupEndpoint db uid nick nm = Except.ok db1) :
    WF db1 ∧ GroupAggInv db1 := by
  cases hu : lookupId db.users uid with
  | none =>
      rw [createGroupEndpoint_userAbsent db uid nick nm hu] at h
      cases h
  | some u =>
  cases hemp : (groupsLinkedTo db uid).isEmpty with
  | false =>
      rw [createGroupEndpoint_hasGroup db uid nick nm u hWF.1 hu hemp] at h
      cases h
  | true =>
  have hempty : groupsLinkedTo db uid = [] := List.isEmpty_iff.1 hemp
  cases hfr : lookupId db.groups nick with
  | some g0 =>
      rw [createGroupEndpoint_nickTaken db uid nick nm u hWF.1 hu hempty g0 hfr] at h
      cases h
  | none =>
  rw [createGroupEndpoint_ok db uid nick nm u hWF hu hempty hfr] at h
  injection h with h
  subst h
  obtain ⟨hukeys, hgkeys, hund, hgnd, hend, hedge⟩ := hWF
  have hz := hzero u hu
  have hnickfree : nick ∉ db.groups.map Prod.fst := (lookupId_eq_none_iff _ _).1 hfr
  have hnotmem : (uid, nick) ∉ db.edges := by
    intro hmem
    have := (hedge (uid, nick) hmem).2
    rw [hfr] at this
    cases this
  have hgnd1 : ((db.groups ++ [(nick, Group.make nick nm)]).map Prod.fst).Nodup := by
    rw [List.map_append, List.nodup_append]
    refine ⟨hgnd, by simp, ?_⟩
    intro a ha hb
    simp only [List.map_cons, List.map_nil, List.mem_singleton] at hb
    subst hb
    exact hnickfree ha
  have hend1 : (db.edges ++ [(uid, nick)]).Nodup := by
    rw [List.nodup_append]
    refine ⟨hend, List.nodup_singleton _, ?_⟩
    intro a ha hb
    have heq : a = (uid, nick) := by simpa using hb
    exact hnotmem (heq ▸ ha)
  constructor
  · refine ⟨hukeys, ?_, hund, hgnd1, hend1, ?_⟩
    · intro kg hkg
      rcases List.mem_append.1 hkg with hkg | hkg
      · exact hgkeys kg hkg
      · have heq : kg = (nick, Group.make nick nm) := by simpa using hkg
        subst heq
        rfl
    · intro e he
      rcases List.mem_append.1 he with he | he
      · refine ⟨(hedge e he).1, ?_⟩
        rw [lookupId_isSome_iff, List.map_append]
        exact List.mem_append_left _
          ((lookupId_isSome_iff db.groups e.2).1 (hedge e he).2)
      · have heq : e = (uid, nick) := by simpa using he
        subst heq
        refine ⟨by rw [hu]; rfl, ?_⟩
        rw [lookupId_append, hfr]
        simp [lookupId]
  · apply groupAggInv_of_lookup hgnd1
    intro k v hv
    rw [lookupId_append] at hv
    cases hg0 : lookupId db.groups k with
    | some g0 =>
        rw [hg0] at hv
        have hv2 : some g0 = some v := hv
        have hveq := Option.some.inj hv2
        subst hveq
        have hkne : nick ≠ k := by
          intro he
          rw [he] at hfr
          rw [hfr] at hg0
          cases hg0
        have hold := groupAggInv_lookup hinv k g0 hg0
        have hzeroE : edgeContrib User.today_steps db.users k (uid, nick) = 0 := by
          unfold edgeContrib
          rw [if_neg hkne]
        have hzeroEW : edgeContrib User.this_week_steps db.users k (uid, nick) = 0 := by
          unfold edgeContrib
          rw [if_neg hkne]
        constructor
        · rw [sum_edges_append, hzeroE, ← hold.1]
          ring
        · rw [sum_edges_append, hzeroEW, ← hold.2]
          ring
    | none =>
        rw [hg0] at hv
        simp only [lookupId] at hv
        by_cases hk : nick = k
        · rw [if_pos hk] at hv
          have hveq := Option.some.inj hv
          subst hveq
          subst hk
          have hallzero : ∀ e ∈ db.edges,
              edgeContrib User.today_steps db.users nick e = 0 := by
            intro e he
            unfold edgeContrib
            by_cases h2 : e.2 = nick
            · exfalso
              have := (hedge e he).2
              rw [h2, hfr] at this
              cases this
            · rw [if_neg h2]
          have hallzeroW : ∀ e ∈ db.edges,
              edgeContrib User.this_week_steps db.users nick e = 0 := by
            intro e he
            unfold edgeContrib
            by_cases h2 : e.2 = nick
            · exfalso
              have := (hedge e he).2
              rw [h2, hfr] at this
              cases this
            · rw [if_neg h2]
          constructor
          · rw [sum_edges_append,
              edgeContrib_self User.today_steps db.users uid nick u hu,
              List.sum_eq_zero (fun x hx => by
                obtain ⟨e, he, hex⟩ := List.mem_map.1 hx
                rw [← hex]
                exact hallzero e he), hz.1]
            simp [Group.make]
          · rw [sum_edges_append,
              edgeContrib_self User.this_week_steps db.users uid nick u hu,
              List.sum_eq_zero (fun x hx => by
                obtain ⟨e, he, hex⟩ := List.mem_map.1 hx
                rw [← hex]
                exact hallzeroW e he), hz.2]
            simp [Group.make]
        · rw [if_neg hk] at hv
          cases hv

/-- The side conditions under which the four operations do maintain the
aggregate invariant: a group may only be created by a user whose two
counters are zero (the code seeds the new group's aggregates to zero,
not to the creator's totals), and `remove_member` may only be called
for an actual member (the code does not check the relation and would
otherwise decrement the group by a non-member's counters). -/
def SafeAction (db : DB) : Action → Prop
  | Action.createGroup uid _ _ => ∀ u, lookupId db.users uid = some u →
      u.today_steps = 0 ∧ u.this_week_steps = 0
  | Action.removeMember uid gid => (uid, gid) ∈ db.edges
  | Action.addMember _ _ => True
  | Action.logSteps _ _ => True

/-- `SafeRun db as db1`: executing the actions `as` sequentially from
`db`, every action succeeds and satisfies its `SafeAction` side
condition, ending in `db1`. -/
inductive SafeRun : DB → List Action → DB → Prop where
  | nil (db : DB) : SafeRun db [] db
  | cons {db db1 db2 : DB} {a : Action} {as : List Action} :
      SafeAction db a → applyAction db a = Except.ok db1 →
      SafeRun db1 as db2 → SafeRun db (a :: as) db2

/-- One successful, safe action preserves well-formedness and the
aggregate invariant. -/
theorem applyAction_ok_inv (db : DB) (a : Action) (db1 : DB)
    (hWF : WF db) (hinv : GroupAggInv db) (hsafe : SafeAction db a)
    (h : applyAction db a = Except.ok db1) : WF db1 ∧ GroupAggInv db1 := by
  cases a with
  | createGroup uid nick nm =>
      exact createGroupEndpoint_ok_inv db uid nick nm db1 hWF hinv hsafe h
  | addMember uid gid =>
      exact addMemberToGroup_ok_inv db uid gid db1 hWF hinv h
  | removeMember uid gid =>
      exact removeMemberFromGroup_ok_inv db uid gid db1 hWF hinv hsafe h
  | logSteps uid n =>
      exact addNewSteps_ok_inv db uid n db1 hWF hinv h

/-- A safe run preserves well-formedness and the aggregate invariant. -/
theorem safeRun_preserves :
    ∀ (db : DB) (as : List Action) (db1 : DB), SafeRun db as db1 →
      WF db → GroupAggInv db → WF db1 ∧ GroupAggInv db1 := by
  intro db as db1 hrun
  induction hrun with
  | nil db =>
      intro h1 h2
      exact ⟨h1, h2⟩
  | cons hsafe hok _ ih =>
      intro h1 h2
      obtain ⟨h3, h4⟩ := applyAction_ok_inv _ _ _ h1 h2 hsafe hok
      exact ih h3 h4

/-- Updating a group twice in a row with the same record equals a
single update (the daily reset loop body calls `update` twice). -/
theorem repoUpdateGroup_twice (db : DB) (g : Group) :
    (do
      let acc1 ← repoUpdateGroup db g
      repoUpdateGroup acc1 g) = repoUpdateGroup db g := by
  cases h : lookupId db.groups (Group.id g) with
  | none =>
      have h1 : repoUpdateGroup db g
          = Except.error (AppError.notFound "Group not found") := by
        unfold repoUpdateGroup
        rw [h]
      rw [h1]
      simp only [error_bind]
  | some g0 =>
      have h1 : repoUpdateGroup db g
          = Except.ok { db with groups := setId db.groups (Group.id g) g } := by
        unfold repoUpdateGroup
        rw [h]
      rw [h1]
      simp only [ok_bind]
      have h2 : lookupId (setId db.groups (Group.id g) g) (Group.id g) = some g :=
        lookupId_setId_self _ _ _ (by rw [h]; rfl)
      unfold repoUpdateGroup
      rw [show ({ db with groups := setId db.groups (Group.id g) g } : DB).groups
        = setId db.groups (Group.id g) g from rfl, h2, setId_setId]

/-- Master characterization of one firing of the daily reset: every
user's and every group's `today_steps` is set to zero and persisted;
nothing else changes (in particular every `this_week_steps` is kept). -/
theorem resetTodaySteps_ok (db : DB) (hWF : WF db) :
    ∃ db1, resetTodaySteps db = Except.ok db1 ∧
      db1.edges = db.edges ∧
      db1.users.map Prod.fst = db.users.map Prod.fst ∧
      db1.groups.map Prod.fst = db.groups.map Prod.fst ∧
      (∀ k u, lookupId db.users k = some u →
        lookupId db1.users k = some (User.zeroToday u)) ∧
      (∀ k g, lookupId db.groups k = some g →
        lookupId db1.groups k = some (Group.zeroToday g)) := by
  obtain ⟨hukeys, hgkeys, hund, hgnd, hend, hedge⟩ := hWF
  have hundid : ((db.users.map Prod.snd).map User.id).Nodup := by
    rw [map_id_get_all_users db.users hukeys]
    exact hund
  obtain ⟨dbA, hfoldU, hgrA, hedA, hkeysA, hframeA, htouchA⟩ :=
    foldlM_updateUser User.zeroToday (fun u => rfl) (db.users.map Prod.snd) db
      hundid (lookup_get_all_users db.users hund hukeys)
  have hbody : (fun (acc : DB) (g : Group) => do
        let acc1 ← repoUpdateGroup acc (Group.zeroToday g)
        repoUpdateGroup acc1 (Group.zeroToday g))
      = fun acc g => repoUpdateGroup acc (Group.zeroToday g) := by
    funext acc g
    exact repoUpdateGroup_twice acc (Group.zeroToday g)
  have hgndidA : ((dbA.groups.map Prod.snd).map Group.id).Nodup := by
    rw [hgrA, map_id_get_all_groups db.groups hgkeys]
    exact hgnd
  have hpresA : ∀ g ∈ dbA.groups.map Prod.snd,
      lookupId dbA.groups (Group.id g) = some g := by
    rw [hgrA]
    exact lookup_get_all_groups db.groups hgnd hgkeys
  obtain ⟨dbB, hfoldG, husB, hedB, hkeysB, hframeB, htouchB⟩ :=
    foldlM_updateGroup Group.zeroToday (fun g => rfl) (dbA.groups.map Prod.snd)
      dbA hgndidA hpresA
  refine ⟨dbB, ?_, ?_, ?_, ?_, ?_, ?_⟩
  · unfold resetTodaySteps
    unfold Repository.get_all
    rw [hfoldU]
    simp only [ok_bind]
    rw [hbody]
    exact hfoldG
  · rw [hedB, hedA]
  · rw [husB, hkeysA]
  · rw [hkeysB, hgrA]
  · intro k u hu
    rw [husB]
    have huin : u ∈ db.users.map Prod.snd := by
      have := lookupId_mem hu
      exact List.mem_map_of_mem Prod.snd this
    have hid : User.id u = k := id_of_lookup_user hukeys hu
    rw [← hid]
    exact htouchA u huin
  · intro k g hg
    have hgin : g ∈ dbA.groups.map Prod.snd := by
      rw [hgrA]
      exact List.mem_map_of_mem Prod.snd (lookupId_mem hg)
    have hid : Group.id g = k := id_of_lookup_group hgkeys hg
    rw [← hid]
    exact htouchB g hgin

/-! ## Substring containment (`in` on Python strings) -/

/-- The specification form of case-sensitive literal substring
containment: the needle occurs contiguously in the hay. -/
def SubstrSpec (needle hay : String) : Prop :=
  ∃ pre post, hay = pre ++ needle ++ post

theorem lpre_iff (n : List Char) : ∀ h : List Char,
    lpre n h = true ↔ ∃ t, h = n ++ t := by
  induction n with
  | nil =>
      intro h
      simp only [lpre, List.nil_append]
      exact ⟨fun _ => ⟨h, rfl⟩, fun _ => by trivial⟩
  | cons a as ih =>
      intro h
      cases h with
      | nil =>
          simp [lpre]
      | cons b bs =>
          simp only [lpre, Bool.and_eq_true, decide_eq_true_eq]
          constructor
          · rintro ⟨hab, hrest⟩
            obtain ⟨t, ht⟩ := (ih bs).1 hrest
            subst hab
            rw [ht]
            exact ⟨t, rfl⟩
          · rintro ⟨t, ht⟩
            injection ht with h1 h2
            exact ⟨h1.symm, (ih bs).2 ⟨t, h2⟩⟩

theorem lsub_iff (n : List Char) : ∀ h : List Char,
    lsub n h = true ↔ ∃ p t, h = p ++ n ++ t := by
  intro h
  induction h with
  | nil =>
      simp only [lsub]
      rw [lpre_iff]
      constructor
      · rintro ⟨t, ht⟩
        exact ⟨[], t, by simpa using ht⟩
      · rintro ⟨p, t, ht⟩
        have h1 := ht.symm
        rw [List.append_assoc] at h1
        obtain ⟨hp, hrest⟩ := List.append_eq_nil.1 h1
        obtain ⟨hn, hter⟩ := List.append_eq_nil.1 hrest
        exact ⟨t, by rw [hn, hter]; rfl⟩
  | cons b bs ih =>
      simp only [lsub, Bool.or_eq_true, ih, lpre_iff]
      constructor
      · rintro (⟨t, ht⟩ | ⟨p, t, ht⟩)
        · exact ⟨[], t, by simpa using ht⟩
        · refine ⟨b :: p, t, ?_⟩
          rw [ht]
          rfl
      · rintro ⟨p, t, ht⟩
        cases p with
        | nil =>
            left
            exact ⟨t, by simpa using ht⟩
        | cons c cs =>
            right
            injection ht with h1 h2
            exact ⟨cs, t, h2⟩

/-- Python's `needle in hay` is exactly literal substring containment. -/
theorem strIn_iff (needle hay : String) :
    strIn needle hay = true ↔ SubstrSpec needle hay := by
  unfold strIn SubstrSpec
  rw [lsub_iff]
  constructor
  · rintro ⟨p, t, ht⟩
    refine ⟨⟨p⟩, ⟨t⟩, ?_⟩
    apply String.ext
    simp only [String.data_append]
    exact ht
  · rintro ⟨pre, post, ht⟩
    refine ⟨pre.data, post.data, ?_⟩
    rw [ht]
    simp

/-- The if / elif chain of the `get_groups` loop equals the obvious
disjunction. -/
theorem matchesFilter_eq (f : String) (name_also loose : Bool) (g : Group) :
    matchesFilter f name_also loose g
      = (if loose then strIn f g.nickname || (name_also && strIn f g.name)
         else (decide (f = g.nickname) || (name_also && decide (f = g.name)))) := by
  unfold matchesFilter
  cases loose with
  | true =>
      cases h1 : strIn f g.nickname with
      | true => simp [h1]
      | false =>
          cases h2 : (name_also && strIn f g.name) <;> simp [h1, h2]
  | false =>
      by_cases h1 : f = g.nickname
      · simp [h1]
      · cases h2 : (name_also && decide (f = g.name)) <;> simp [h1, h2]

/-! ## `get_group_of_user` characterization -/

theorem getGroupOfUser_userAbsent (db : DB) (uid : String)
    (h : lookupId db.users uid = none) :
    getGroupOfUser db uid = Except.error (AppError.notFound "User not found") := by
  unfold getGroupOfUser getOneUser
  rw [h]
  simp only [error_bind]

theorem getGroupOfUser_some (db : DB) (uid : String) (u : User)
    (hukeys : ∀ ku ∈ db.users, User.id ku.2 = ku.1)
    (hu : lookupId db.users uid = some u) :
    getGroupOfUser db uid =
      (match groupsLinkedTo db uid with
       | [] => Except.error (AppError.noContent "The user has no group")
       | g :: _ => Except.ok g) := by
  have huid : User.id u = uid := id_of_lookup_user hukeys hu
  unfold getGroupOfUser getOneUser
  rw [hu]
  simp only [ok_bind]
  rw [huid, getGroupsOfUser_some db uid u hu]
  simp only [ok_bind]

/-! ## Concrete sample stores used by witnesses and counterexamples -/

/-- A freshly registered user (zero counters). -/
def annU : User := User.make "ann" "Ann" "A" "N" "ann" "ann@x" "p"

/-- A user with non-zero counters and no group. -/
def carolU : User :=
  { User.make "carol" "Carol" "C" "R" "carol" "c@x" "p" with
      today_steps := 100, this_week_steps := 100 }

/-- A user with non-zero counters. -/
def bobU : User :=
  { User.make "bob" "Bob" "B" "O" "bob" "b@x" "p" with
      today_steps := 50, this_week_steps := 60 }

/-- A group whose aggregates match its sole member `bobU`. -/
def teamG : Group :=
  { Group.make "team" "Team" with today_steps := 50, this_week_steps := 60 }

/-- Store: bob alone in group team, plus groupless ann and carol. -/
def dbTeam : DB :=
  { users := [("ann", annU), ("bob", bobU), ("carol", carolU)],
    groups := [("team", teamG)],
    edges := [("bob", "team")] }

/-! ## Claim theorems -/

/-- C2: `log_steps` (`StepsServices.add_new_steps`) raises NotFound when
the user is absent (and, returning only the error, changes nothing);
otherwise, for every integer delta, it adds the delta to the user's
`today_steps` and `this_week_steps` and persists the user, and adds the
same delta to both counters of every group the user belongs to (in
particular, the user's group when it has one) and persists it, leaving
all other users, groups, and the membership relation unchanged. -/
theorem C2_log_steps (db : DB) (uid : String) (steps : Int) (hWF : WF db) :
    (lookupId db.users uid = none →
      addNewSteps db uid steps = Except.error (AppError.notFound "User not found")) ∧
    (∀ u, lookupId db.users uid = some u →
      ∃ db1, addNewSteps db uid steps = Except.ok db1 ∧
        lookupId db1.users uid = some (User.bump u steps) ∧
        (∀ k, k ≠ uid → lookupId db1.users k = lookupId db.users k) ∧
        db1.edges = db.edges ∧
        (∀ k g, lookupId db.groups k = some g →
          lookupId db1.groups k =
            some (if (uid, k) ∈ db.edges then Group.bump g steps else g))) := by
  constructor
  · intro h
    exact addNewSteps_notFound db uid steps h
  · intro u hu
    obtain ⟨db1, hok, hkeysU, hkeysG, hed, husers, hgr⟩ :=
      addNewSteps_ok db uid steps u hWF hu
    refine ⟨db1, hok, ?_, ?_, hed, hgr⟩
    · rw [husers]
      exact lookupId_setId_self _ _ _ (by rw [hu]; rfl)
    · intro k hk
      rw [husers]
      exact lookupId_setId_ne _ _ _ _ hk

/-- Witness for C2 on the concrete store `dbTeam`: logging 7 steps for
bob raises both of bob's counters by 7, raises both counters of his
group by 7, and leaves ann untouched. -/
theorem C2_log_steps_witness :
    WF dbTeam ∧ lookupId dbTeam.users "bob" = some bobU ∧
    (∃ db1, addNewSteps dbTeam "bob" 7 = Except.ok db1 ∧
      lookupId db1.users "bob" = some (User.bump bobU 7) ∧
      (∀ k, k ≠ "bob" → lookupId db1.users k = lookupId dbTeam.users k) ∧
      db1.edges = dbTeam.edges ∧
      (∀ k g, lookupId dbTeam.groups k = some g →
        lookupId db1.groups k =
          some (if ("bob", k) ∈ dbTeam.edges then Group.bump g 7 else g))) :=
  ⟨by decide, by decide,
    (C2_log_steps dbTeam "bob" 7 (by decide)).2 bobU (by decide)⟩

/-- C7: one firing of the daily reset sets `today_steps` to 0 for every
user and every group and persists them; every other field — in
particular every `this_week_steps` — and the membership relation are
unchanged (each post-state record is exactly the old record with
`today_steps` replaced by 0). -/
theorem C7_daily_reset (db : DB) (hWF : WF db) :
    ∃ db1, resetTodaySteps db = Except.ok db1 ∧
      db1.edges = db.edges ∧
      db1.users.map Prod.fst = db.users.map Prod.fst ∧
      db1.groups.map Prod.fst = db.groups.map Prod.fst ∧
      (∀ k u, lookupId db.users k = some u →
        lookupId db1.users k = some (User.zeroToday u)) ∧
      (∀ k g, lookupId db.groups k = some g →
        lookupId db1.groups k = some (Group.zeroToday g)) :=
  resetTodaySteps_ok db hWF

/-- Witness for C7 on `dbTeam`. -/
theorem C7_daily_reset_witness :
    WF dbTeam ∧
    (∃ db1, resetTodaySteps dbTeam = Except.ok db1 ∧
      db1.edges = dbTeam.edges ∧
      db1.users.map Prod.fst = dbTeam.users.map Prod.fst ∧
      db1.groups.map Prod.fst = dbTeam.groups.map Prod.fst ∧
      (∀ k u, lookupId dbTeam.users k = some u →
        lookupId db1.users k = some (User.zeroToday u)) ∧
      (∀ k g, lookupId dbTeam.groups k = some g →
        lookupId db1.groups k = some (Group.zeroToday g))) :=
  ⟨by decide, C7_daily_reset dbTeam (by decide)⟩

/-- C9: for a user id not yet present, `add_user` followed by
`get_user` of that id returns exactly the record built from the input
profile fields and the default values, and a second `add_user` with the
same id (any profile fields) raises Duplicate. -/
theorem C9_create_then_get (users : List (String × User))
    (sub name given_name family_name nickname email picture : String)
    (h : lookupId users sub = none) :
    ∃ users1,
      addUser users sub name given_name family_name nickname email picture
        = Except.ok users1 ∧
      getUser users1 sub
        = Except.ok (User.make sub name given_name family_name nickname email picture) ∧
      (∀ n2 g2 f2 k2 e2 p2, addUser users1 sub n2 g2 f2 k2 e2 p2
        = Except.error (AppError.duplicate "Entity already exists")) := by
  have hid : User.id (User.make sub name given_name family_name nickname email picture)
      = sub := rfl
  refine ⟨users ++ [(sub, User.make sub name given_name family_name nickname email picture)],
    ?_, ?_, ?_⟩
  · unfold addUser Repository.add
    rw [hid, h]
  · unfold getUser Repository.get_one
    rw [lookupId_append, h]
    simp [lookupId]
  · intro n2 g2 f2 k2 e2 p2
    unfold addUser Repository.add
    have hid2 : User.id (User.make sub n2 g2 f2 k2 e2 p2) = sub := rfl
    rw [hid2, lookupId_append, h]
    simp [lookupId]

/-- Witness for C9 at a concrete store. -/
theorem C9_create_then_get_witness :
    lookupId dbTeam.users "dora" = none ∧
    (∃ users1,
      addUser dbTeam.users "dora" "Dora" "D" "X" "dora" "d@x" "p"
        = Except.ok users1 ∧
      getUser users1 "dora"
        = Except.ok (User.make "dora" "Dora" "D" "X" "dora" "d@x" "p") ∧
      (∀ n2 g2 f2 k2 e2 p2, addUser users1 "dora" n2 g2 f2 k2 e2 p2
        = Except.error (AppError.duplicate "Entity already exists"))) :=
  ⟨by decide,
    C9_create_then_get dbTeam.users "dora" "Dora" "D" "X" "dora" "d@x" "p" (by decide)⟩

/-- C10: failing operations of the in-memory `Repository` are exactly
characterized (and, the operations being pure functions from the old
store, a failing call yields only the error and leaves the stored
entities exactly as they were): `add` fails with Duplicate exactly when
the entity's id is present, `update` fails with NotFound exactly when
the id is absent, `delete` fails with NotFound exactly when the id is
absent, and `get_one` fails with NotFound exactly when the id is
absent and never modifies the store (it returns the stored entity
otherwise). -/
theorem C10_repository_error_handling {α : Type} (idOf : α → String)
    (entities : List (String × α)) (e : α) (k : String) :
    (Repository.get_one entities k
        = Except.error (AppError.notFound "Entity not found") ↔
      lookupId entities k = none) ∧
    (∀ v, lookupId entities k = some v →
      Repository.get_one entities k = Except.ok v) ∧
    (Repository.add idOf entities e
        = Except.error (AppError.duplicate "Entity already exists") ↔
      (lookupId entities (idOf e)).isSome) ∧
    (lookupId entities (idOf e) = none →
      Repository.add idOf entities e = Except.ok (entities ++ [(idOf e, e)])) ∧
    (Repository.update idOf entities e
        = Except.error (AppError.notFound "Entity not found") ↔
      lookupId entities (idOf e) = none) ∧
    (∀ v, lookupId entities (idOf e) = some v →
      Repository.update idOf entities e
        = Except.ok (setId entities (idOf e) e)) ∧
    (Repository.delete entities k
        = Except.error (AppError.notFound "Entity not found") ↔
      lookupId entities k = none) ∧
    (∀ v, lookupId entities k = some v →
      Repository.delete entities k = Except.ok (removeId entities k)) := by
  refine ⟨?_, ?_, ?_, ?_, ?_, ?_, ?_, ?_⟩
  · unfold Repository.get_one
    cases h : lookupId entities k with
    | none => simp
    | some v => simp
  · intro v hv
    unfold Repository.get_one
    rw [hv]
  · unfold Repository.add
    cases h : lookupId entities (idOf e) with
    | none => simp
    | some v => simp
  · intro h
    unfold Repository.add
    rw [h]
  · unfold Repository.update
    cases h : lookupId entities (idOf e) with
    | none => simp
    | some v => simp
  · intro v hv
    unfold Repository.update
    rw [hv]
  · unfold Repository.delete
    cases h : lookupId entities k with
    | none => simp
    | some v => simp
  · intro v hv
    unfold Repository.delete
    rw [hv]

/-- Witness for C10 at a concrete user store. -/
theorem C10_repository_error_handling_witness :
    lookupId dbTeam.users "bob" = some bobU ∧
    Repository.get_one dbTeam.users "bob" = Except.ok bobU ∧
    Repository.add User.id dbTeam.users bobU
      = Except.error (AppError.duplicate "Entity already exists") ∧
    Repository.delete dbTeam.users "nope"
      = Except.error (AppError.notFound "Entity not found") := by
  have h := C10_repository_error_handling User.id dbTeam.users bobU "bob"
  refine ⟨by decide, h.2.1 bobU (by decide), ?_, ?_⟩
  · exact h.2.2.1.2 (by decide)
  · exact (C10_repository_error_handling User.id dbTeam.users bobU "nope").2.2.2.2.2.2.1.2
      (by decide)

/-- Store: carol (non-zero counters) alone, no groups. -/
def dbSolo : DB := { users := [("carol", carolU)], groups := [], edges := [] }

/-- C3 counterexample: the claim says a freshly created group's
aggregates equal the creator's current counters ("not zero").  For the
creator carol with `today_steps = 100` the code succeeds but the new
group's counters are 0, not 100: `add_group` builds a default `Group`
and creates the membership edge at the repository level, which performs
no step seeding. -/
theorem C3_create_group_counterexample :
    lookupId dbSolo.users "carol" = some carolU ∧
    carolU.today_steps = 100 ∧ carolU.this_week_steps = 100 ∧
    createGroupEndpoint dbSolo "carol" "g" "G" = Except.ok
      { users := dbSolo.users,
        groups := [("g", Group.make "g" "G")],
        edges := [("carol", "g")] } ∧
    (Group.make "g" "G").today_steps = 0 ∧
    (Group.make "g" "G").this_week_steps = 0 :=
  ⟨by decide, by decide, by decide, rfl, by decide, by decide⟩

/-- C3 (amended): `create_group` raises NotFound if the creator is
absent; raises Duplicate if the creator already belongs to a group,
creating nothing; raises Duplicate if the nickname is taken, creating
nothing; and otherwise succeeds, creating a group whose `today_steps`
and `this_week_steps` are the defaults — zero, regardless of the
creator's counters — together with the membership relation from the
creator to the new group. -/
theorem C3_create_group (db : DB) (uid nick nm : String) (hWF : WF db) :
    (lookupId db.users uid = none →
      createGroupEndpoint db uid nick nm
        = Except.error (AppError.notFound "User not found")) ∧
    (∀ u, lookupId db.users uid = some u → groupsLinkedTo db uid ≠ [] →
      createGroupEndpoint db uid nick nm
        = Except.error (AppError.duplicate "The user already has a group")) ∧
    (∀ u g0, lookupId db.users uid = some u → groupsLinkedTo db uid = [] →
      lookupId db.groups nick = some g0 →
      createGroupEndpoint db uid nick nm
        = Except.error (AppError.duplicate "Group already exists")) ∧
    (∀ u, lookupId db.users uid = some u → groupsLinkedTo db uid = [] →
      lookupId db.groups nick = none →
      createGroupEndpoint db uid nick nm = Except.ok
        { users := db.users,
          groups := db.groups ++ [(nick, Group.make nick nm)],
          edges := db.edges ++ [(uid, nick)] } ∧
      (Group.make nick nm).today_steps = 0 ∧
      (Group.make nick nm).this_week_steps = 0) := by
  refine ⟨?_, ?_, ?_, ?_⟩
  · intro h
    exact createGroupEndpoint_userAbsent db uid nick nm h
  · intro u hu hne
    have hfalse : (groupsLinkedTo db uid).isEmpty = false := by
      cases hgs : groupsLinkedTo db uid with
      | nil => exact absurd hgs hne
      | cons g t => rfl
    exact createGroupEndpoint_hasGroup db uid nick nm u hWF.1 hu hfalse
  · intro u g0 hu hempty hg0
    exact createGroupEndpoint_nickTaken db uid nick nm u hWF.1 hu hempty g0 hg0
  · intro u hu hempty hfresh
    exact ⟨createGroupEndpoint_ok db uid nick nm u hWF hu hempty hfresh, rfl, rfl⟩

/-- Witness for C3 on `dbTeam`: groupless carol creates "club". -/
theorem C3_create_group_witness :
    WF dbTeam ∧ lookupId dbTeam.users "carol" = some carolU ∧
    groupsLinkedTo dbTeam "carol" = [] ∧
    lookupId dbTeam.groups "club" = none ∧
    (createGroupEndpoint dbTeam "carol" "club" "Club" = Except.ok
      { users := dbTeam.users,
        groups := dbTeam.groups ++ [("club", Group.make "club" "Club")],
        edges := dbTeam.edges ++ [("carol", "club")] } ∧
      (Group.make "club" "Club").today_steps = 0 ∧
      (Group.make "club" "Club").this_week_steps = 0) :=
  ⟨by decide, by decide, by decide, by decide,
    (C3_create_group dbTeam "carol" "club" "Club" (by decide)).2.2.2 carolU
      (by decide) (by decide) (by decide)⟩

/-- C5 counterexample: the claim says `remove_member` raises NotFound
when the user has no membership relation to the group and then changes
nothing.  On `dbTeam`, carol exists but is not a member of team; the
call succeeds (no exception) and decrements team's counters by carol's
values, even driving them negative. -/
theorem C5_remove_member_counterexample :
    ("carol", "team") ∉ dbTeam.edges ∧
    lookupId dbTeam.users "carol" = some carolU ∧
    lookupId dbTeam.groups "team" = some teamG ∧
    teamG.today_steps = 50 ∧ teamG.this_week_steps = 60 ∧
    removeMemberFromGroup dbTeam "carol" "team" = Except.ok
      { users := dbTeam.users,
        groups := [("team",
          { teamG with today_steps := -50, this_week_steps := -40 })],
        edges := [("bob", "team")] } :=
  ⟨by decide, by decide, by decide, by decide, by decide, rfl⟩

/-- C5 (amended): `remove_member` raises NotFound when the group is
absent, or when the user is absent, and then changes nothing; when both
exist it always succeeds (even if the user has no membership relation
to the group): it deletes the user's edges to the group if any, then
deletes the group when no member remains (so a subsequent get of the
group raises NotFound), and otherwise decrements the group's two
counters by the user's current step values and persists the group. -/
theorem C5_remove_member (db : DB) (uid gid : String) (hWF : WF db) :
    (lookupId db.groups gid = none →
      removeMemberFromGroup db uid gid
        = Except.error (AppError.notFound "Group not found")) ∧
    (∀ g, lookupId db.groups gid = some g → lookupId db.users uid = none →
      removeMemberFromGroup db uid gid
        = Except.error (AppError.notFound "User not found")) ∧
    (∀ u g, lookupId db.users uid = some u → lookupId db.groups gid = some g →
      ((linkedUsers db.users
          (db.edges.filter fun e => !(e.1 = uid && e.2 = gid)) gid).isEmpty = true →
        removeMemberFromGroup db uid gid = Except.ok
          { users := db.users,
            groups := removeId db.groups gid,
            edges := (db.edges.filter fun e => !(e.1 = uid && e.2 = gid)).filter
                (fun e => !(e.2 = gid)) } ∧
        getOneGroup
          { users := db.users,
            groups := removeId db.groups gid,
            edges := (db.edges.filter fun e => !(e.1 = uid && e.2 = gid)).filter
                (fun e => !(e.2 = gid)) } gid
          = Except.error (AppError.notFound "Group not found")) ∧
      ((linkedUsers db.users
          (db.edges.filter fun e => !(e.1 = uid && e.2 = gid)) gid).isEmpty = false →
        removeMemberFromGroup db uid gid = Except.ok
          { users := db.users,
            groups := setId db.groups gid
                { g with today_steps := g.today_steps - u.today_steps,
                         this_week_steps := g.this_week_steps - u.this_week_steps },
            edges := db.edges.filter fun e => !(e.1 = uid && e.2 = gid) })) := by
  refine ⟨?_, ?_, ?_⟩
  · intro h
    exact removeMemberFromGroup_groupAbsent db uid gid h
  · intro g hg hu
    exact removeMemberFromGroup_userAbsent db uid gid g hg hu
  · intro u g hu hg
    have hmaster := removeMemberFromGroup_ok db uid gid u g hWF hu hg
    constructor
    · intro hE
      rw [hE] at hmaster
      rw [if_pos rfl] at hmaster
      refine ⟨hmaster, ?_⟩
      unfold getOneGroup
      rw [show (DB.mk db.users (removeId db.groups gid)
          ((db.edges.filter fun e => !(e.1 = uid && e.2 = gid)).filter
            (fun e => !(e.2 = gid)))).groups = removeId db.groups gid from rfl]
      rw [lookupId_removeId db.groups gid hWF.2.2.2.1, if_pos rfl]
    · intro hE
      rw [hE] at hmaster
      simp only [Bool.false_eq_true, if_false] at hmaster
      exact hmaster

/-- Witness for C5 on `dbTeam`: removing bob (the sole member) deletes
team, and a subsequent get raises NotFound. -/
theorem C5_remove_member_witness :
    WF dbTeam ∧ lookupId dbTeam.users "bob" = some bobU ∧
    lookupId dbTeam.groups "team" = some teamG ∧
    (linkedUsers dbTeam.users
      (dbTeam.edges.filter fun e => !(e.1 = "bob" && e.2 = "team")) "team").isEmpty = true ∧
    (removeMemberFromGroup dbTeam "bob" "team" = Except.ok
      { users := dbTeam.users,
        groups := removeId dbTeam.groups "team",
        edges := (dbTeam.edges.filter fun e => !(e.1 = "bob" && e.2 = "team")).filter
            (fun e => !(e.2 = "team")) } ∧
      getOneGroup
        { users := dbTeam.users,
          groups := removeId dbTeam.groups "team",
          edges := (dbTeam.edges.filter fun e => !(e.1 = "bob" && e.2 = "team")).filter
              (fun e => !(e.2 = "team")) } "team"
        = Except.error (AppError.notFound "Group not found")) :=
  ⟨by decide, by decide, by decide, by decide,
    ((C5_remove_member dbTeam "bob" "team" (by decide)).2.2 bobU teamG
      (by decide) (by decide)).1 (by decide)⟩

theorem linkedGroups_eq_nil (groups : List (String × Group))
    (edges : List (String × String)) (uid : String)
    (h : ∀ e ∈ edges, e.1 = uid → False) : linkedGroups groups edges uid = [] := by
  induction edges with
  | nil => rfl
  | cons e t ih =>
      unfold linkedGroups
      rw [List.filterMap_cons]
      rw [if_neg (fun hh => h e (List.mem_cons_self _ _) hh)]
      exact ih (fun e2 he2 hh => h e2 (List.mem_cons_of_mem _ he2) hh)

theorem pair_filter_mem {uid gid : String} {e : String × String}
    (h : (!(decide (e.1 = uid) && decide (e.2 = gid))) = true) (h1 : e.1 = uid) :
    e.2 ≠ gid := by
  intro h2
  rw [h1, h2] at h
  simp at h

/-- C1: `GroupAggInv db1` after a safe run; proved below as the claim
theorem.  First the two concrete stores of the counterexample. -/
def dbSoloX : DB :=
  { users := dbSolo.users,
    groups := [("g", Group.make "g" "G")],
    edges := [("carol", "g")] }

/-- C1 counterexample: from a well-formed state satisfying the
aggregate invariant, the single successful operation
`create_group(carol, "g", "G")` (carol has 100/100 steps) produces a
state violating the invariant: the new group's counters are 0 while its
sole member carol has 100/100. -/
theorem C1_group_aggregate_invariant_counterexample :
    WF dbSolo ∧ GroupAggInv dbSolo ∧
    RunOk dbSolo [Action.createGroup "carol" "g" "G"] dbSoloX ∧
    ¬ GroupAggInv dbSoloX := by
  refine ⟨by decide, by decide, ?_, by decide⟩
  exact RunOk.cons rfl (RunOk.nil dbSoloX)

/-- C1 (amended): starting from a well-formed state in which every
group's `today_steps` and `this_week_steps` equal the sums of its
current members' counters, after any sequence of successful
`create_group`, `add_member`, `remove_member` and `log_steps`
operations executed sequentially in which additionally every
`create_group` is performed by a creator whose two counters are zero
and every `remove_member` names a user that is currently a member of
the named group (`SafeRun`), every group that exists satisfies
`group.today_steps = sum of member.today_steps` and
`group.this_week_steps = sum of member.this_week_steps` over its
current members. -/
theorem C1_group_aggregate_invariant (db : DB) (as : List Action) (db1 : DB)
    (hWF : WF db) (hinv : GroupAggInv db) (hrun : SafeRun db as db1) :
    GroupAggInv db1 :=
  (safeRun_preserves db as db1 hrun hWF hinv).2

/-- Initial and final stores of the C1 witness run. -/
def annDB : DB := { users := [("ann", annU)], groups := [], edges := [] }

def annDBmid : DB :=
  { users := [("ann", annU)],
    groups := [("g", Group.make "g" "G")],
    edges := [("ann", "g")] }

def annDBX : DB :=
  { users := [("ann", User.bump annU 5)],
    groups := [("g", Group.bump (Group.make "g" "G") 5)],
    edges := [("ann", "g")] }

/-- Witness for C1: ann (0/0 counters) creates a group, then logs 5
steps; the invariant holds at the end. -/
theorem C1_group_aggregate_invariant_witness :
    WF annDB ∧ GroupAggInv annDB ∧
    SafeRun annDB [Action.createGroup "ann" "g" "G", Action.logSteps "ann" 5] annDBX ∧
    GroupAggInv annDBX := by
  have hsafe1 : SafeAction annDB (Action.createGroup "ann" "g" "G") := by
    intro u hu
    have hu2 : some annU = some u := hu
    cases Option.some.inj hu2
    exact ⟨rfl, rfl⟩
  have hstep1 : applyAction annDB (Action.createGroup "ann" "g" "G")
      = Except.ok annDBmid := rfl
  have hsafe2 : SafeAction annDBmid (Action.logSteps "ann" 5) := trivial
  have hstep2 : applyAction annDBmid (Action.logSteps "ann" 5)
      = Except.ok annDBX := rfl
  have hrun : SafeRun annDB
      [Action.createGroup "ann" "g" "G", Action.logSteps "ann" 5] annDBX :=
    SafeRun.cons hsafe1 hstep1 (SafeRun.cons hsafe2 hstep2 (SafeRun.nil annDBX))
  exact ⟨by decide, by decide, hrun,
    C1_group_aggregate_invariant annDB
      [Action.createGroup "ann" "g" "G", Action.logSteps "ann" 5] annDBX
      (by decide) (by decide) hrun⟩

/-- Store with two one-member groups: bob in team (50/60), ann in club
(0/0). -/
def dbTwo : DB :=
  { users := [("ann", annU), ("bob", bobU)],
    groups := [("team", teamG), ("club", Group.make "club" "Club")],
    edges := [("bob", "team"), ("ann", "club")] }

/-- Club's record after bob joins it as its second group. -/
def clubJoined : Group :=
  { Group.make "club" "Club" with today_steps := 50, this_week_steps := 60 }

/-- The store after `add_member(bob, club)` succeeds although bob is
already a member of team. -/
def dbTwoX : DB :=
  { users := dbTwo.users,
    groups := [("team", teamG), ("club", clubJoined)],
    edges := [("bob", "team"), ("ann", "club"), ("bob", "club")] }

/-- C4 evaluation at the failing input: bob is a member of team, club
is a different existing group, yet `add_member_to_group(bob, club)`
does NOT raise Duplicate — it succeeds, leaving bob a member of two
groups at once (both edges present) and adding bob's counters onto
club.  The claim (Duplicate whenever the user is already a member of
any group) is the documented and specified intent; the code only
rejects re-joining the same group. -/
theorem C4_second_group_join_allowed :
    ("bob", "team") ∈ dbTwo.edges ∧
    ("bob", "club") ∉ dbTwo.edges ∧
    "club" ≠ "team" ∧
    WF dbTwo ∧ GroupAggInv dbTwo ∧
    addMemberToGroup dbTwo "bob" "club" = Except.ok dbTwoX ∧
    ("bob", "team") ∈ dbTwoX.edges ∧ ("bob", "club") ∈ dbTwoX.edges :=
  ⟨by decide, by decide, by decide, by decide, by decide, rfl, by decide, by decide⟩

/-- C6 counterexample: the claim says that after a successful
`add_member` the user's `get_group_of` returns that group.  After the
(wrongly) successful `add_member(bob, club)` from `dbTwo`,
`get_group_of_user(bob)` returns team — the first relation — not
club. -/
theorem C6_get_group_of_user_counterexample :
    addMemberToGroup dbTwo "bob" "club" = Except.ok dbTwoX ∧
    getGroupOfUser dbTwoX "bob" = Except.ok teamG ∧
    Group.id teamG ≠ "club" :=
  ⟨rfl, rfl, by decide⟩

theorem getGroupOfUser_cons (db : DB) (uid : String) (u : User) (g : Group)
    (gs : List Group) (hlinked : groupsLinkedTo db uid = g :: gs)
    (hukeys : ∀ ku ∈ db.users, User.id ku.2 = ku.1)
    (hu : lookupId db.users uid = some u) :
    getGroupOfUser db uid = Except.ok g := by
  rw [getGroupOfUser_some db uid u hukeys hu, hlinked]

theorem getGroupOfUser_nil (db : DB) (uid : String) (u : User)
    (hlinked : groupsLinkedTo db uid = [])
    (hukeys : ∀ ku ∈ db.users, User.id ku.2 = ku.1)
    (hu : lookupId db.users uid = some u) :
    getGroupOfUser db uid = Except.error (AppError.noContent "The user has no group") := by
  rw [getGroupOfUser_some db uid u hukeys hu, hlinked]

/-- C6 (amended): `get_group_of_user` raises NotFound iff the user is
absent; raises NoContent — a distinct signal — iff the user exists but
has no group; otherwise returns the first of the user's groups.  After
a successful `add_member` performed while the user had no group it
returns that group, and after a successful `remove_member` by a user
whose memberships (if any) were all to the removed group it raises
NoContent. -/
theorem C6_get_group_of_user (db : DB) (uid : String) (hWF : WF db) :
    (getGroupOfUser db uid = Except.error (AppError.notFound "User not found") ↔
      lookupId db.users uid = none) ∧
    (getGroupOfUser db uid = Except.error (AppError.noContent "The user has no group") ↔
      ((lookupId db.users uid).isSome ∧ groupsLinkedTo db uid = [])) ∧
    (∀ g gs, (lookupId db.users uid).isSome → groupsLinkedTo db uid = g :: gs →
      getGroupOfUser db uid = Except.ok g) ∧
    (∀ gid db1, groupsLinkedTo db uid = [] →
      addMemberToGroup db uid gid = Except.ok db1 →
      ∃ g, getGroupOfUser db1 uid = Except.ok g ∧ Group.id g = gid) ∧
    (∀ gid db1, (∀ e ∈ db.edges, e.1 = uid → e.2 = gid) →
      removeMemberFromGroup db uid gid = Except.ok db1 →
      getGroupOfUser db1 uid
        = Except.error (AppError.noContent "The user has no group")) := by
  refine ⟨?_, ?_, ?_, ?_, ?_⟩
  · constructor
    · intro heq
      cases hu : lookupId db.users uid with
      | none => rfl
      | some u =>
          rw [getGroupOfUser_some db uid u hWF.1 hu] at heq
          cases hgs : groupsLinkedTo db uid with
          | nil =>
              rw [hgs] at heq
              simp at heq
          | cons g gs =>
              rw [hgs] at heq
              simp at heq
    · intro h
      exact getGroupOfUser_userAbsent db uid h
  · constructor
    · intro heq
      cases hu : lookupId db.users uid with
      | none =>
          rw [getGroupOfUser_userAbsent db uid hu] at heq
          simp at heq
      | some u =>
          refine ⟨by rfl, ?_⟩
          rw [getGroupOfUser_some db uid u hWF.1 hu] at heq
          cases hgs : groupsLinkedTo db uid with
          | nil => rfl
          | cons g gs =>
              rw [hgs] at heq
              simp at heq
    · rintro ⟨hsome, hgs⟩
      obtain ⟨u, hu⟩ := Option.isSome_iff_exists.1 hsome
      rw [getGroupOfUser_some db uid u hWF.1 hu, hgs]
  · intro g gs hsome hgs
    obtain ⟨u, hu⟩ := Option.isSome_iff_exists.1 hsome
    rw [getGroupOfUser_some db uid u hWF.1 hu, hgs]
  · intro gid db1 hempty haddok
    cases hu : lookupId db.users uid with
    | none =>
        unfold addMemberToGroup at haddok
        rw [getGroupsOfUser_none db uid hu] at haddok
        simp only [error_bind] at haddok
        cases haddok
    | some u =>
        have hnotin : gid ∉ (groupsLinkedTo db uid).map Group.id := by
          rw [hempty]
          simp
        cases hg : lookupId db.groups gid with
        | none =>
            unfold addMemberToGroup at haddok
            rw [getGroupsOfUser_some db uid u hu] at haddok
            simp only [ok_bind] at haddok
            rw [if_neg hnotin] at haddok
            unfold repoAddMember at haddok
            rw [hg] at haddok
            simp only [error_bind] at haddok
            cases haddok
        | some g =>
            rw [addMemberToGroup_ok db uid gid u g hWF hu hg hnotin] at haddok
            injection haddok with haddok
            subst haddok
            obtain ⟨hukeys, hgkeys, hund, hgnd, hend, hedge⟩ := hWF
            set g1 : Group :=
              { g with today_steps := g.today_steps + u.today_steps,
                       this_week_steps := g.this_week_steps + u.this_week_steps } with hg1
            have hnouid : ∀ e ∈ db.edges, e.1 = uid → False := by
              intro e he h1
              have hgE := (hedge e he).2
              obtain ⟨gE, hgE2⟩ := Option.isSome_iff_exists.1 hgE
              have : gE ∈ groupsLinkedTo db uid := by
                rw [groupsLinkedTo_eq]
                exact mem_linkedGroups.2 ⟨e.2, by rw [← h1]; exact he, hgE2⟩
              rw [hempty] at this
              cases this
            have hlinked : groupsLinkedTo
                { users := db.users, groups := setId db.groups gid g1,
                  edges := db.edges ++ [(uid, gid)] } uid = [g1] := by
              rw [groupsLinkedTo_eq]
              unfold linkedGroups
              rw [List.filterMap_append]
              rw [show List.filterMap
                  (fun e => if e.1 = uid then lookupId (setId db.groups gid g1) e.2 else none)
                  db.edges = [] from linkedGroups_eq_nil (setId db.groups gid g1) db.edges uid hnouid]
              simp only [List.filterMap_cons, List.filterMap_nil, List.nil_append,
                if_true]
              rw [lookupId_setId_self _ _ _ (by rw [hg]; rfl)]
            have hgid0 : Group.id g = gid := id_of_lookup_group hgkeys hg
            refine ⟨g1, ?_, hgid0⟩
            exact getGroupOfUser_cons _ uid u g1 [] hlinked hukeys hu
  · intro gid db1 honly hremok
    cases hgl : lookupId db.groups gid with
    | none =>
        rw [removeMemberFromGroup_groupAbsent db uid gid hgl] at hremok
        cases hremok
    | some g =>
    cases hul : lookupId db.users uid with
    | none =>
        rw [removeMemberFromGroup_userAbsent db uid gid g hgl hul] at hremok
        cases hremok
    | some u =>
    rw [removeMemberFromGroup_ok db uid gid u g hWF hul hgl] at hremok
    have hnouid1 : ∀ e ∈ db.edges.filter (fun e => !(e.1 = uid && e.2 = gid)),
        e.1 = uid → False := by
      intro e he h1
      obtain ⟨hein, hp⟩ := List.mem_filter.1 he
      exact pair_filter_mem hp h1 (honly e hein h1)
    by_cases hE : (linkedUsers db.users
        (db.edges.filter fun e => !(e.1 = uid && e.2 = gid)) gid).isEmpty
    · rw [if_pos hE] at hremok
      injection hremok with hremok
      subst hremok
      have hnouid2 : ∀ e ∈ (db.edges.filter
          (fun e => !(e.1 = uid && e.2 = gid))).filter (fun e => !(e.2 = gid)),
          e.1 = uid → False := by
        intro e he h1
        exact hnouid1 e (List.mem_filter.1 he).1 h1
      have hlinked : groupsLinkedTo
          { users := db.users, groups := removeId db.groups gid,
            edges := (db.edges.filter fun e => !(e.1 = uid && e.2 = gid)).filter
                (fun e => !(e.2 = gid)) } uid = [] := by
        rw [groupsLinkedTo_eq]
        exact linkedGroups_eq_nil _ _ uid hnouid2
      exact getGroupOfUser_nil _ uid u hlinked hWF.1 hul
    · rw [if_neg hE] at hremok
      injection hremok with hremok
      subst hremok
      have hlinked : groupsLinkedTo
          { users := db.users,
            groups := setId db.groups gid
                { g with today_steps := g.today_steps - u.today_steps,
                         this_week_steps := g.this_week_steps - u.this_week_steps },
            edges := db.edges.filter fun e => !(e.1 = uid && e.2 = gid) } uid = [] := by
        rw [groupsLinkedTo_eq]
        exact linkedGroups_eq_nil _ _ uid hnouid1
      exact getGroupOfUser_nil _ uid u hlinked hWF.1 hul

/-- Witness for C6 on `dbTeam`: bob exists with team as his group, and
`get_group_of_user(bob)` returns team. -/
theorem C6_get_group_of_user_witness :
    WF dbTeam ∧ (lookupId dbTeam.users "bob").isSome ∧
    groupsLinkedTo dbTeam "bob" = [teamG] ∧
    getGroupOfUser dbTeam "bob" = Except.ok teamG :=
  ⟨by decide, by decide, by decide,
    (C6_get_group_of_user dbTeam "bob" (by decide)).2.2.1 teamG [] (by decide) (by decide)⟩

/-- C8: `get_groups` with an empty filter returns all groups,
unfiltered, in store order; with a non-empty filter it returns exactly
the groups passing the loop's condition, in store order, and that
condition holds iff, in loose mode, the filter is a case-sensitive
literal substring of the nickname or (when `name_also`) of the name,
and in non-loose mode iff it equals the nickname or (when `name_also`)
the name. -/
theorem C8_get_groups (db : DB) (f : String) (name_also loose : Bool) :
    (f = "" → getGroups db f name_also loose = Repository.get_all db.groups) ∧
    (f ≠ "" → getGroups db f name_also loose
      = (Repository.get_all db.groups).filter (matchesFilter f name_also loose)) ∧
    (loose = true → ∀ g : Group, matchesFilter f name_also loose g = true ↔
      (SubstrSpec f g.nickname ∨ (name_also = true ∧ SubstrSpec f g.name))) ∧
    (loose = false → ∀ g : Group, matchesFilter f name_also loose g = true ↔
      (f = g.nickname ∨ (name_also = true ∧ f = g.name))) := by
  refine ⟨?_, ?_, ?_, ?_⟩
  · intro h
    unfold getGroups
    rw [if_pos h]
  · intro h
    unfold getGroups
    rw [if_neg h]
  · intro hl g
    subst hl
    rw [matchesFilter_eq]
    simp only [if_true, Bool.or_eq_true, Bool.and_eq_true, strIn_iff]
  · intro hl g
    subst hl
    rw [matchesFilter_eq]
    simp only [Bool.false_eq_true, if_false, Bool.or_eq_true, Bool.and_eq_true,
      decide_eq_true_eq]

/-- Witness for C8 on `dbTeam` with the filter "ea" (a substring of
"team"). -/
theorem C8_get_groups_witness :
    getGroups dbTeam "" true true = Repository.get_all dbTeam.groups ∧
    getGroups dbTeam "ea" true true
      = (Repository.get_all dbTeam.groups).filter (matchesFilter "ea" true true) ∧
    (matchesFilter "ea" true true teamG = true ↔
      (SubstrSpec "ea" teamG.nickname ∨ (true = true ∧ SubstrSpec "ea" teamG.name))) :=
  ⟨(C8_get_groups dbTeam "" true true).1 rfl,
    (C8_get_groups dbTeam "ea" true true).2.1 (by decide),
    (C8_get_groups dbTeam "ea" true true).2.2.1 rfl teamG⟩

end Mooover
